import Mathlib

/-!
Formal model of the position-mirroring scripts of the fxapi repository
(`mt5torobinhood.py` and `mt5totradelockercopier.py`).

Conventions of the shallow embedding:
* Machine time is modelled as seconds since an epoch (`ℕ`); a calendar day is
  `dayOf t = t / 86400`, and the `"%Y-%m-%d"` string produced by `strftime` for
  day `d` is modelled as the key `some d : Option ℕ`; a key that `strptime`
  fails to parse (a malformed dictionary key) is modelled as `none`.  This is a
  faithful abstraction of the string round trip: `strptime (strftime d) = d`,
  distinct days give distinct strings, and non-date strings fail to parse.
* Python floats that only ever feed arithmetic comparisons are modelled as `ℚ`.
* A fallible external call is modelled as an `Except` (an `Except.error`
  stands for a raised exception caught by the corresponding `except:` block).
  `MetaTrader5.positions_get()` is modelled as
  `Except Unit (Option (List MtPosition))`: `Except.error` is a raised
  exception, `Except.ok none` is the `None` return value by which the
  MetaTrader5 API signals an error, `Except.ok (some ps)` a tuple of positions.
* Python dictionaries are modelled as association lists together with the
  operations `mlookup` / `mset` / `merase` (first-occurrence semantics, which
  coincide with dictionary semantics on the duplicate-free states the programs
  construct).
-/

set_option linter.unusedVariables false

/-! ## Time -/

def secondsPerDay : ℕ := 86400

/-- Calendar day of a timestamp (seconds since the epoch). -/
def dayOf (t : ℕ) : ℕ := t / secondsPerDay

/-- A key of the `day_trades_count` dictionary: `some d` is the string
`strftime "%Y-%m-%d"` of day `d`, `none` a key `strptime` cannot parse. -/
abbrev DayKey := Option ℕ

/-! ## Dictionary operations (association lists) -/

/-- `d[k]` lookup: first matching key. -/
def mlookup {α : Type} : List (ℕ × α) → ℕ → Option α
  | [], _ => none
  | (k, v) :: r, t => if k = t then some v else mlookup r t

/-- `d[k] = v`: replace the first binding of `k`, or append a new one. -/
def mset {α : Type} : List (ℕ × α) → ℕ → α → List (ℕ × α)
  | [], t, v => [(t, v)]
  | (k, w) :: r, t, v => if k = t then (t, v) :: r else (k, w) :: mset r t v

/-- `del d[k]`: drop every binding of `k` (on duplicate-free states, the one). -/
def merase {α : Type} : List (ℕ × α) → ℕ → List (ℕ × α)
  | [], _ => []
  | (k, v) :: r, t => if k = t then merase r t else (k, v) :: merase r t

/-- The set of keys of a dictionary. -/
def mdom {α : Type} (m : List (ℕ × α)) : Finset ℕ := (m.map Prod.fst).toFinset

/-- Counter lookup with default `0` (reading `day_trades_count`). -/
def cget : List (DayKey × ℕ) → DayKey → ℕ
  | [], _ => 0
  | (k, c) :: r, t => if k = t then c else cget r t

/-- `d.setdefault(k, 0); d[k] += 1` on the counter dictionary. -/
def cincr : List (DayKey × ℕ) → DayKey → List (DayKey × ℕ)
  | [], k => [(k, 1)]
  | (k0, c) :: r, k => if k0 = k then (k0, c + 1) :: r else (k0, c) :: cincr r k

/-! ## Market-hours check (`is_market_open_now`, mt5torobinhood.py lines 157-177) -/

/-- Result of resolving `datetime.now(pytz.timezone('US/Eastern'))`:
weekday (`0` = Monday) and the time of day in seconds (rational, so that
sub-second precision is representable). -/
structure TimeInfo where
  weekday : ℕ
  secondsOfDay : ℚ
deriving DecidableEq, Repr

/-- `is_market_open_now`: weekday `< 5` and between 09:30:00 (34200 s) and
16:00:00 (57600 s) inclusive; any exception during time resolution yields
`false` ("If we can't determine, assume not open"). -/
def is_market_open_now (tz : Except Unit TimeInfo) : Bool :=
  match tz with
  | Except.error _ => false
  | Except.ok t =>
    if 5 ≤ t.weekday then false
    else decide ((34200 : ℚ) ≤ t.secondsOfDay) && decide (t.secondsOfDay ≤ (57600 : ℚ))

/-! ## Day-trade ledger and PDT check
(`account_equity_and_pdt_check`, mt5torobinhood.py lines 183-219) -/

/-- One step of the rolling-sum loop over `day_trades_count.items()`:
parse the key with `strptime` (a `none` key raises and is skipped), then
add the count if the parsed midnight is at or after `now - 7 days`. -/
def dt7Step (now : ℕ) (acc : ℕ) (kv : DayKey × ℕ) : ℕ :=
  match kv.1 with
  | none => acc
  | some d => if now - 7 * secondsPerDay ≤ d * secondsPerDay then acc + kv.2 else acc

/-- The in-line rolling 7-day sum of `account_equity_and_pdt_check`
(`day_trades_in_7_days` accumulator, lines 205-214). -/
def day_trades_in_7_days (counters : List (DayKey × ℕ)) (now : ℕ) : ℕ :=
  counters.foldl (dt7Step now) 0

/-- `account_equity_and_pdt_check`: the equity fetch is
`Except.error ex` when loading or parsing `portfolio_cash` raises `ex`.
Returns `(allowed, reason)`. -/
def account_equity_and_pdt_check (equity : Except String ℚ)
    (counters : List (DayKey × ℕ)) (now : ℕ) : Bool × String :=
  match equity with
  | Except.error ex => (false, "Error retrieving portfolio_cash from profile: " ++ ex)
  | Except.ok account_val =>
    if (25000 : ℚ) ≤ account_val then
      (true, "Account >= $25k, no PDT restrictions")
    else
      if 3 ≤ day_trades_in_7_days counters now then
        (false, "PDT limit reached (3+ day trades in last 7 days)")
      else
        (true, "Used " ++ toString (day_trades_in_7_days counters now) ++
          " day trades in last 7 days")

/-- `record_day_trade_if_applicable` (mt5torobinhood.py lines 440-450):
increment today's counter iff the close happens on the open's calendar day. -/
def record_day_trade_if_applicable (counters : List (DayKey × ℕ))
    (now : ℕ) (open_time : ℕ) : List (DayKey × ℕ) :=
  if dayOf now = dayOf open_time then cincr counters (some (dayOf now)) else counters

/-! ## Spec-side definitions used for refinement comparison -/

/-- Definition following the spec's words (§4.5): membership of a counter entry
in the two-sided window `[now - 7 days, now]`. -/
def inWindowSpec (now : ℕ) (kv : DayKey × ℕ) : Bool :=
  match kv.1 with
  | none => false
  | some d =>
    decide (now - 7 * secondsPerDay ≤ d * secondsPerDay) && decide (d * secondsPerDay ≤ now)

/-- Definition following the spec's words: sum of the counters whose date keys
fall within the last 7 calendar days of `now` (both bounds enforced). -/
def rolling_sum_window (counters : List (DayKey × ℕ)) (now : ℕ) : ℕ :=
  ((counters.filter (inWindowSpec now)).map Prod.snd).sum

/-- The one-sided membership test the code actually implements (lower bound
only, no upper bound). -/
def inWindowLower (now : ℕ) (kv : DayKey × ℕ) : Bool :=
  match kv.1 with
  | none => false
  | some d => decide (now - 7 * secondsPerDay ≤ d * secondsPerDay)

def C7now : ℕ := 20000 * secondsPerDay + 36000

def C7cexCounters : List (DayKey × ℕ) := [(some 20030, 4)]

def C7vector : List (DayKey × ℕ) := [(some 20000, 2), (some 19997, 1), (some 19992, 5)]

/-- `true` iff the entry's key does not parse to a date after `now`
(every key `record_day_trade_if_applicable` can ever write satisfies this). -/
def keyNotFuture (now : ℕ) (kv : DayKey × ℕ) : Bool :=
  match kv.1 with
  | none => true
  | some d => decide (d * secondsPerDay ≤ now)

/-! ## OrderLifecycleStore loading
(`load_trade_mapping`, mt5totradelockercopier.py lines 33-51)

A raw JSON key is modelled like a day key: `some n` is the decimal string of
ticket `n` (on which `int(k)` succeeds), `none` a string `int` rejects.
The file argument is `none` when `os.path.exists` is false, `some
(Except.error ())` when `open`/`json.load` raises (corrupt or partially
written file), and `some (Except.ok kvs)` a successfully parsed JSON object. -/

/-- `{int(k): v for k, v in mapping.items()}`: fails (raises, hence `none`)
as soon as one key is not an integer literal. -/
def intKeys : List (Option ℕ × ℤ) → Option (List (ℕ × ℤ))
  | [] => some []
  | (none, _) :: _ => none
  | (some k, v) :: r =>
    match intKeys r with
    | none => none
    | some m => some ((k, v) :: m)

/-- `load_trade_mapping`: returns the mapping together with a flag recording
that the missing/corrupt-store condition was logged instead of raised. -/
def load_trade_mapping (file : Option (Except Unit (List (Option ℕ × ℤ)))) :
    List (ℕ × ℤ) × Bool :=
  match file with
  | none => ([], true)
  | some (Except.error _) => ([], true)
  | some (Except.ok kvs) =>
    match intKeys kvs with
    | none => ([], true)
    | some m => (m, false)

/-! ## Order translation (`copy_mt5_trade_to_robinhood`, mt5torobinhood.py
lines 280-364, and `close_robinhood_position`, lines 370-434) -/

/-- `mt5.ORDER_TYPE_BUY` (value 0 in the MetaTrader5 API). -/
def ORDER_TYPE_BUY : ℕ := 0

/-- Floor of a rational (executable: floor division of numerator by
denominator, the denominator being positive). -/
def floorQ (q : ℚ) : ℤ := Int.fdiv q.num q.den

/-- Python's integer `round`: round half to even. -/
def roundHalfEven (q : ℚ) : ℤ :=
  if q - floorQ q < 1/2 then floorQ q
  else if 1/2 < q - floorQ q then floorQ q + 1
  else if floorQ q % 2 = 0 then floorQ q else floorQ q + 1

/-- `round(last_price, 2)`: round to cent precision. -/
def round2 (q : ℚ) : ℚ := (roundHalfEven (q * 100) : ℚ) / 100

/-- One source position as observed via `mt5.positions_get()`. -/
structure MtPosition where
  ticket : ℕ
  type : ℕ
  volume : ℕ
  price_current : ℚ
deriving DecidableEq, Repr

/-- The argument record of `place_robinhood_option_order`. -/
structure OrderReq where
  symbol : String
  exp_date : ℕ
  strike : ℚ
  option_type : String
  quantity : ℕ
  side : String
  position_effect : String
  limit_price : ℚ
deriving DecidableEq, Repr

/-- The `rh_info` dictionary stored per mirrored ticket. -/
structure RhInfo where
  symbol : String
  expiration_date : ℕ
  strike : ℚ
  option_type : String
  quantity : ℕ
  side : String
deriving DecidableEq, Repr

/-- Observable events of one engine run: store mutations (`create`/`delete`),
the invocation of the close-mirroring action (`closeAttempt`), and order
submissions. -/
inductive Ev where
  | create (t : ℕ)
  | delete (t : ℕ)
  | closeAttempt (t : ℕ)
  | submitOpen (t : ℕ) (req : OrderReq)
  | submitClose (t : ℕ) (req : OrderReq)
deriving DecidableEq, Repr

/-- External-world inputs consumed by one call of
`copy_mt5_trade_to_robinhood`. -/
structure CopyEnv where
  tz : Except Unit TimeInfo
  equity : Except String ℚ
  lastPrice : Except Unit ℚ
  bestBid : Except Unit (Option ℚ)
  placeOpen : OrderReq → Option ℕ

/-- `copy_mt5_trade_to_robinhood`: market-hours gate, PDT gate, then BUY→call /
otherwise→put, strike `round(last_price, 2)`, expiration today, limit price
`1.001 * best_bid`; any unavailable datum aborts with `None` before any order
is submitted. -/
def copy_mt5_trade_to_robinhood (env : CopyEnv) (counters : List (DayKey × ℕ))
    (now : ℕ) (trade : MtPosition) : Option RhInfo × List Ev :=
  if is_market_open_now env.tz = false then (none, [])
  else if (account_equity_and_pdt_check env.equity counters now).1 = false then (none, [])
  else
    let option_type := if trade.type = ORDER_TYPE_BUY then "call" else "put"
    match env.lastPrice with
    | Except.error _ => (none, [])
    | Except.ok last_price =>
      let strike_price := round2 last_price
      match env.bestBid with
      | Except.error _ => (none, [])
      | Except.ok none => (none, [])
      | Except.ok (some best_bid) =>
        let req : OrderReq :=
          { symbol := "TSLA", exp_date := dayOf now, strike := strike_price,
            option_type := option_type, quantity := trade.volume, side := "buy",
            position_effect := "open", limit_price := (1001 / 1000) * best_bid }
        match env.placeOpen req with
        | none => (none, [Ev.submitOpen trade.ticket req])
        | some _ =>
          (some { symbol := "TSLA", expiration_date := dayOf now,
                  strike := strike_price, option_type := option_type,
                  quantity := trade.volume, side := "buy" },
            [Ev.submitOpen trade.ticket req])

/-- External-world inputs consumed by one call of `close_robinhood_position`. -/
structure CloseEnv where
  tz : Except Unit TimeInfo
  equity : Except String ℚ
  bestAsk : Except Unit (Option ℚ)
  placeClose : OrderReq → Option ℕ

/-- `close_robinhood_position`: market-hours gate, PDT gate, reverse the
original side, limit price `0.995 * best_ask`. -/
def close_robinhood_position (env : CloseEnv) (counters : List (DayKey × ℕ))
    (now : ℕ) (t : ℕ) (rh_info : RhInfo) : Option ℕ × List Ev :=
  if is_market_open_now env.tz = false then (none, [])
  else if (account_equity_and_pdt_check env.equity counters now).1 = false then (none, [])
  else
    let side_to_close := if rh_info.side = "buy" then "sell" else "buy"
    match env.bestAsk with
    | Except.error _ => (none, [])
    | Except.ok none => (none, [])
    | Except.ok (some best_ask) =>
      let req : OrderReq :=
        { symbol := rh_info.symbol, exp_date := rh_info.expiration_date,
          strike := rh_info.strike, option_type := rh_info.option_type,
          quantity := rh_info.quantity, side := side_to_close,
          position_effect := "close", limit_price := (995 / 1000) * best_ask }
      (env.placeClose req, [Ev.submitClose t req])

/-! ## Position mirror engine, Robinhood copier
(`monitor_trades_forever` main loop body, mt5torobinhood.py lines 497-544) -/

/-- Mutable state carried across ticks of the Robinhood monitoring loop. -/
structure RhState where
  old_tickets : List ℕ
  ticket_to_rh : List (ℕ × RhInfo × ℕ)
  day_trades_count : List (DayKey × ℕ)
deriving DecidableEq

/-- External-world inputs consumed by one iteration of the monitoring loop. -/
structure RhTickEnv where
  fetch : Except Unit (Option (List MtPosition))
  now : ℕ
  openEnv : ℕ → CopyEnv
  closeEnv : ℕ → CloseEnv

/-- `{p.ticket for p in current_positions}`: a Python set, modelled as a
duplicate-free list (iteration order fixed by the position list; every
property proved below is order-independent). -/
def currentTicketsOf (ps : List MtPosition) : List ℕ :=
  (ps.map MtPosition.ticket).dedup

/-- `new_tickets = current_tickets - old_tickets`. -/
def newTicketsOf (previous current : List ℕ) : List ℕ :=
  current.filter (fun t => decide (t ∉ previous))

/-- `closed_tickets = old_tickets - current_tickets`. -/
def closedTicketsOf (previous current : List ℕ) : List ℕ :=
  previous.filter (fun t => decide (t ∉ current))

/-- `next((p for p in current_positions if p.ticket == nt), None)`. -/
def findPos (ps : List MtPosition) (t : ℕ) : Option MtPosition :=
  ps.find? (fun p => p.ticket == t)

/-- The `(A) new positions` loop of the tick (lines 514-523). -/
def rhOpens (env : RhTickEnv) (ps : List MtPosition) (counters : List (DayKey × ℕ)) :
    List ℕ → List (ℕ × RhInfo × ℕ) → List (ℕ × RhInfo × ℕ) × List Ev
  | [], m => (m, [])
  | nt :: rest, m =>
    match findPos ps nt with
    | none => rhOpens env ps counters rest m
    | some pos =>
      let r := copy_mt5_trade_to_robinhood (env.openEnv nt) counters env.now pos
      match r.1 with
      | none =>
        let r2 := rhOpens env ps counters rest m
        (r2.1, r.2 ++ r2.2)
      | some rh_info =>
        let r2 := rhOpens env ps counters rest (mset m nt (rh_info, env.now))
        (r2.1, r.2 ++ [Ev.create nt] ++ r2.2)

/-- The `(B) closed positions` loop of the tick (lines 525-533): attempt the
destination close, record the day trade, and delete the record
unconditionally. -/
def rhCloses (env : RhTickEnv) :
    List ℕ → List (ℕ × RhInfo × ℕ) → List (DayKey × ℕ) →
      List (ℕ × RhInfo × ℕ) × List (DayKey × ℕ) × List Ev
  | [], m, cnt => (m, cnt, [])
  | ct :: rest, m, cnt =>
    match mlookup m ct with
    | none => rhCloses env rest m cnt
    | some iv =>
      let c := close_robinhood_position (env.closeEnv ct) cnt env.now ct iv.1
      let cnt2 := record_day_trade_if_applicable cnt env.now iv.2
      let r2 := rhCloses env rest (merase m ct) cnt2
      (r2.1, r2.2.1, [Ev.closeAttempt ct] ++ c.2 ++ [Ev.delete ct] ++ r2.2.2)

/-- One iteration of the Robinhood monitoring loop: on a raised fetch
exception the tick is skipped (`continue`), otherwise `None` and a tuple of
positions are both turned into a ticket set (`None` gives the empty set),
deltas are taken by set difference, opens then closes are processed, and
`old_tickets` becomes `current_tickets`. -/
def rhTick (env : RhTickEnv) (s : RhState) : RhState × List Ev :=
  match env.fetch with
  | Except.error _ => (s, [])
  | Except.ok res =>
    let current_positions := res.getD []
    let current_tickets := currentTicketsOf current_positions
    let ropen := rhOpens env current_positions s.day_trades_count
      (newTicketsOf s.old_tickets current_tickets) s.ticket_to_rh
    let rclose := rhCloses env (closedTicketsOf s.old_tickets current_tickets)
      ropen.1 s.day_trades_count
    ({ old_tickets := current_tickets, ticket_to_rh := rclose.1,
       day_trades_count := rclose.2.1 }, ropen.2 ++ rclose.2.2)

/-- A whole run of the monitoring loop over a list of per-tick environments. -/
def rhRun : List RhTickEnv → RhState → RhState × List Ev
  | [], s => (s, [])
  | e :: es, s =>
    let r := rhTick e s
    let r2 := rhRun es r.1
    (r2.1, r.2 ++ r2.2)

/-! ## Position mirror engine, TradeLocker copier
(`copy_trades`, mt5totradelockercopier.py lines 148-216) -/

/-- `MAGIC_NUMBER = 15`: only positions with this magic number are copied. -/
def MAGIC_NUMBER : ℕ := 15

/-- One source position as observed by the TradeLocker copier. -/
structure TlPosition where
  ticket : ℕ
  symbol : String
  type : ℕ
  volume : ℚ
  magic : ℕ
deriving DecidableEq, Repr

/-- External-world inputs consumed by one iteration of `copy_trades`:
`placeOrder t` is the outcome of `place_tradelocker_order` for ticket `t`
(`none` on failure or exception), `closeOrder oid` the outcome of
`close_tradelocker_order` (`false` on failure or exception). -/
structure TlEnv where
  fetch : Except Unit (Option (List TlPosition))
  placeOrder : ℕ → Option ℤ
  closeOrder : ℤ → Bool

/-- Mutable state of `copy_trades`. -/
structure TlState where
  old_tickets : List ℕ
  ticket_to_tradelocker : List (ℕ × ℤ)
deriving DecidableEq

/-- `{p.ticket for p in current_positions}` in the TradeLocker copier. -/
def currentTlTicketsOf (ps : List TlPosition) : List ℕ :=
  (ps.map TlPosition.ticket).dedup

/-- `next((p for p in current_positions if p.ticket == ticket), None)`. -/
def findTlPos (ps : List TlPosition) (t : ℕ) : Option TlPosition :=
  ps.find? (fun p => p.ticket == t)

/-- The new-positions loop of `copy_trades` (lines 164-192): magic-number
filter, place the order, store the mapping on success. -/
def tlOpens (env : TlEnv) (ps : List TlPosition) :
    List ℕ → List (ℕ × ℤ) → List (ℕ × ℤ) × List Ev
  | [], m => (m, [])
  | t :: rest, m =>
    match findTlPos ps t with
    | none => tlOpens env ps rest m
    | some pos =>
      if pos.magic ≠ MAGIC_NUMBER then tlOpens env ps rest m
      else
        match env.placeOrder t with
        | none => tlOpens env ps rest m
        | some oid =>
          let r2 := tlOpens env ps rest (mset m t oid)
          (r2.1, Ev.create t :: r2.2)

/-- The closed-positions loop of `copy_trades` (lines 194-208): attempt the
close; delete the mapping entry only if the close succeeded. -/
def tlCloses (env : TlEnv) : List ℕ → List (ℕ × ℤ) → List (ℕ × ℤ) × List Ev
  | [], m => (m, [])
  | t :: rest, m =>
    match mlookup m t with
    | none => tlCloses env rest m
    | some oid =>
      if env.closeOrder oid then
        let r2 := tlCloses env rest (merase m t)
        (r2.1, Ev.closeAttempt t :: Ev.delete t :: r2.2)
      else
        let r2 := tlCloses env rest m
        (r2.1, Ev.closeAttempt t :: r2.2)

/-- One iteration of the `copy_trades` loop. -/
def copy_trades_tick (env : TlEnv) (s : TlState) : TlState × List Ev :=
  match env.fetch with
  | Except.error _ => (s, [])
  | Except.ok res =>
    let ps := res.getD []
    let current_tickets := currentTlTicketsOf ps
    let ropen := tlOpens env ps (newTicketsOf s.old_tickets current_tickets)
      s.ticket_to_tradelocker
    let rclose := tlCloses env (closedTicketsOf s.old_tickets current_tickets) ropen.1
    ({ old_tickets := current_tickets, ticket_to_tradelocker := rclose.1 },
      ropen.2 ++ rclose.2)

/-- A whole run of `copy_trades` over a list of per-tick environments. -/
def tlRun : List TlEnv → TlState → TlState × List Ev
  | [], s => (s, [])
  | e :: es, s =>
    let r := copy_trades_tick e s
    let r2 := tlRun es r.1
    (r2.1, r.2 ++ r2.2)

/-- The successful snapshots (as ticket sets) of a run, in order. -/
def tlSnaps : List TlEnv → List (Finset ℕ)
  | [] => []
  | e :: es =>
    match e.fetch with
    | Except.error _ => tlSnaps es
    | Except.ok r => (currentTlTicketsOf (r.getD [])).toFinset :: tlSnaps es

/-! ## Trace predicates -/

/-- Number of `create t` events in a trace. -/
def createCount (t : ℕ) (tr : List Ev) : ℕ :=
  tr.countP (fun e => decide (e = Ev.create t))

/-- Number of `delete t` events in a trace. -/
def delCount (t : ℕ) (tr : List Ev) : ℕ :=
  tr.countP (fun e => decide (e = Ev.delete t))

/-- Number of `closeAttempt t` events in a trace. -/
def caCount (t : ℕ) (tr : List Ev) : ℕ :=
  tr.countP (fun e => decide (e = Ev.closeAttempt t))

/-- The store's `create` is never invoked twice for the same ticket without an
intervening `delete` of that ticket. -/
def NoSecondCreateWithoutDelete (tr : List Ev) : Prop :=
  ∀ (t : ℕ) (l1 l2 l3 : List Ev),
    tr = l1 ++ Ev.create t :: l2 ++ Ev.create t :: l3 → Ev.delete t ∈ l2

/-! ## Trace machinery and spec-side order-policy definition -/

/-- Effect of one event on the set of live (created, not yet deleted)
store entries. -/
def liveStep (live : Finset ℕ) : Ev → Finset ℕ
  | Ev.create t => insert t live
  | Ev.delete t => live.erase t
  | _ => live

/-- The live set after a trace. -/
def liveAfter (live : Finset ℕ) (tr : List Ev) : Finset ℕ := tr.foldl liveStep live

/-- Every `create` in the trace is for a ticket not currently live. -/
def createsFresh : Finset ℕ → List Ev → Prop
  | _, [] => True
  | live, e :: r => (∀ t, e = Ev.create t → t ∉ live) ∧ createsFresh (liveStep live e) r

/-- `noRevisit gone prev snaps`: along the snapshot sequence, a ticket that
has disappeared (entered `gone`) never appears again.  This encodes the
MetaTrader5 guarantee that a position ticket is unique for the life of the
position (a closed ticket is never reused). -/
def noRevisit : Finset ℕ → Finset ℕ → List (Finset ℕ) → Bool
  | _, _, [] => true
  | gone, prev, c :: rest =>
    decide (gone ∩ c = ∅) && noRevisit (gone ∪ (prev \ c)) c rest

/-- Number of tickets in `cts` whose record in `m` was opened on the calendar
day of `now` (each such close increments today's day-trade counter by one). -/
def sameDayCloses (m : List (ℕ × RhInfo × ℕ)) (now : ℕ) (cts : List ℕ) : ℕ :=
  cts.countP (fun ct =>
    match mlookup m ct with
    | none => false
    | some iv => decide (dayOf now = dayOf iv.2))

/-- Definition following the spec's words (§4.3): the nearest available
at-the-money strike to the reference price (first-listed wins ties). -/
def nearestAvailableStrike (avail : List ℚ) (price : ℚ) : Option ℚ :=
  avail.foldl (fun best k =>
    match best with
    | none => some k
    | some b => if |k - price| < |b - price| then some k else best) none

/-! ## Concrete scenario inputs -/

/-- A concrete mirrored-record value used by the concrete scenarios below. -/
def cexInfo : RhInfo :=
  { symbol := "TSLA", expiration_date := 0, strike := 10, option_type := "call",
    quantity := 1, side := "buy" }

/-- A close environment in which every external lookup fails. -/
def cexCloseEnv : CloseEnv :=
  { tz := Except.error (), equity := Except.error "boom", bestAsk := Except.error (),
    placeClose := fun _ => none }

/-- An open environment: market open on a Monday at 10:00, equity 30000,
reference price 401, best bid 2, submission succeeding. -/
def cexOpenEnv : CopyEnv :=
  { tz := Except.ok { weekday := 0, secondsOfDay := 36000 }, equity := Except.ok 30000,
    lastPrice := Except.ok 401, bestBid := Except.ok (some 2),
    placeOpen := fun _ => some 1 }

/-- State with one mirrored ticket, used by the C3 counterexample. -/
def C3state : RhState :=
  { old_tickets := [1], ticket_to_rh := [(1, cexInfo, 0)], day_trades_count := [] }

/-- A tick in which `positions_get()` returns the error value `None`. -/
def C3envNone : RhTickEnv :=
  { fetch := Except.ok none, now := 5, openEnv := fun _ => cexOpenEnv,
    closeEnv := fun _ => cexCloseEnv }

/-- A tick in which `positions_get()` raises. -/
def C3envErr : RhTickEnv :=
  { fetch := Except.error (), now := 5, openEnv := fun _ => cexOpenEnv,
    closeEnv := fun _ => cexCloseEnv }

/-- TradeLocker state with one mirrored ticket (order id 42). -/
def C2tlState : TlState := { old_tickets := [1], ticket_to_tradelocker := [(1, 42)] }

/-- A TradeLocker tick in which the source position disappeared and the
destination close fails. -/
def C2tlEnv : TlEnv :=
  { fetch := Except.ok (some []), placeOrder := fun _ => some 7,
    closeOrder := fun _ => false }

/-- Two such ticks in a row: ticket 1 vanishes at the first one and its
destination close keeps failing; the second tick sees it already gone. -/
def C2tlEnvs : List TlEnv := [C2tlEnv, C2tlEnv]

/-- State with one mirrored ticket opened at time 100 (calendar day 0). -/
def C10state : RhState :=
  { old_tickets := [5], ticket_to_rh := [(5, cexInfo, 100)], day_trades_count := [] }

/-- A tick at time 200 (same calendar day 0) in which ticket 5 disappeared and
every close-path lookup fails. -/
def C10env : RhTickEnv :=
  { fetch := Except.ok (some []), now := 200, openEnv := fun _ => cexOpenEnv,
    closeEnv := fun _ => cexCloseEnv }

/-- A long source position at reference price 401. -/
def C6trade : MtPosition := { ticket := 9, type := 0, volume := 2, price_current := 401 }

/-- A plausible chain of listed strikes around 401 (no cent-granular strike
is listed). -/
def C6avail : List ℚ := [400, 405]

/-- A source position carrying the copier's magic number. -/
def C1tlPos : TlPosition :=
  { ticket := 1, symbol := "EURUSD", type := 0, volume := 1, magic := 15 }

/-- Two TradeLocker ticks: ticket 1 appears, then disappears. -/
def C1tlEnvs : List TlEnv :=
  [ { fetch := Except.ok (some [C1tlPos]), placeOrder := fun _ => some 7,
      closeOrder := fun _ => true },
    { fetch := Except.ok (some []), placeOrder := fun _ => some 8,
      closeOrder := fun _ => true } ]

/-- Empty initial TradeLocker state. -/
def C1tlS0 : TlState := { old_tickets := [], ticket_to_tradelocker := [] }

/-- 1 if `t` is a key of `m`, else 0 (used for counting arguments). -/
def dInd {α : Type} (t : ℕ) (m : List (ℕ × α)) : ℕ := if t ∈ mdom m then 1 else 0

/-- The order request the opening translation submits for a position
(the argument record built at mt5torobinhood.py lines 339-348). -/
def openReq (now : ℕ) (trade : MtPosition) (last_price best_bid : ℚ) : OrderReq :=
  { symbol := "TSLA", exp_date := dayOf now, strike := round2 last_price,
    option_type := if trade.type = ORDER_TYPE_BUY then "call" else "put",
    quantity := trade.volume, side := "buy", position_effect := "open",
    limit_price := (1001 / 1000) * best_bid }

/-- The `rh_info` record returned on a successful open (lines 353-360). -/
def openInfo (now : ℕ) (trade : MtPosition) (last_price : ℚ) : RhInfo :=
  { symbol := "TSLA", expiration_date := dayOf now, strike := round2 last_price,
    option_type := if trade.type = ORDER_TYPE_BUY then "call" else "put",
    quantity := trade.volume, side := "buy" }

/-! ## Theorems -/

theorem dt7_foldl_acc (now : ℕ) :
    ∀ (cs : List (DayKey × ℕ)) (a : ℕ),
      cs.foldl (dt7Step now) a = a + ((cs.filter (inWindowLower now)).map Prod.snd).sum := by
  intro cs
  induction cs with
  | nil => intro a; simp
  | cons kv r ih =>
    intro a
    obtain ⟨k, c⟩ := kv
    cases k with
    | none =>
      simp only [List.foldl_cons, dt7Step, List.filter_cons, inWindowLower]
      simpa using ih a
    | some d =>
      have hstep : ∀ b, dt7Step now b (some d, c) =
          if now - 7 * secondsPerDay ≤ d * secondsPerDay then b + c else b := fun b => rfl
      by_cases h : now - 7 * secondsPerDay ≤ d * secondsPerDay
      · rw [List.foldl_cons, hstep, if_pos h, ih (a + c), List.filter_cons]
        have : inWindowLower now (some d, c) = true := by
          simp [inWindowLower, h]
        rw [if_pos this]
        simp
        omega
      · rw [List.foldl_cons, hstep, if_neg h, ih a, List.filter_cons]
        have : inWindowLower now (some d, c) = false := by
          simp [inWindowLower, h]
        rw [this]
        simp

/-! ### String helpers; claims C4, C5, C7 and C9 -/

theorem data_append_ne (a b : String) (h : a.data ≠ []) : (a ++ b).data ≠ [] := by
  intro hc
  rw [String.data_append] at hc
  exact h (List.append_eq_nil.mp hc).1

theorem append_ne_empty_left (a b : String) (h : a.data ≠ []) : a ++ b ≠ "" := by
  intro hc
  exact data_append_ne a b h (congrArg String.data hc)

/-- C4: the gate fails closed.  If timezone resolution raises,
`is_market_open_now` returns `false` (denying the action; the caller logs the
fixed reason "Market CLOSED").  If the account-equity lookup raises while
below-threshold status is unknown, `account_equity_and_pdt_check` returns
`false` together with a non-empty reason string.  No trade is allowed on
missing data: with either input undetermined, the translation aborts before
submitting anything. -/
theorem C4_gate_fails_closed :
    ∀ (e : Unit) (ex : String) (counters : List (DayKey × ℕ)) (now : ℕ),
      is_market_open_now (Except.error e) = false ∧
      account_equity_and_pdt_check (Except.error ex) counters now =
        (false, "Error retrieving portfolio_cash from profile: " ++ ex) ∧
      (account_equity_and_pdt_check (Except.error ex) counters now).2 ≠ "" ∧
      (∀ (eq : Except String ℚ) (lp : Except Unit ℚ) (bb : Except Unit (Option ℚ))
          (po : OrderReq → Option ℕ) (trade : MtPosition),
        copy_mt5_trade_to_robinhood ⟨Except.error e, eq, lp, bb, po⟩ counters now trade =
          (none, [])) ∧
      (∀ (tz : Except Unit TimeInfo) (lp : Except Unit ℚ) (bb : Except Unit (Option ℚ))
          (po : OrderReq → Option ℕ) (trade : MtPosition),
        copy_mt5_trade_to_robinhood ⟨tz, Except.error ex, lp, bb, po⟩ counters now trade =
          (none, [])) := by
  intro e ex counters now
  refine ⟨rfl, rfl, append_ne_empty_left _ _ (by decide), fun eq lp bb po trade => rfl,
    fun tz lp bb po trade => ?_⟩
  by_cases hm : is_market_open_now tz = false
  · unfold copy_mt5_trade_to_robinhood
    rw [if_pos hm]
  · unfold copy_mt5_trade_to_robinhood
    rw [if_neg hm]
    rfl

/-- C5: for every successful equity fetch, equity at least 25000 allows
unconditionally (whatever the day-trade counters hold); equity below 25000
denies exactly when the rolling 7-day day-trade sum is at least 3 and allows
otherwise, always with a non-empty reason string. -/
theorem C5_equity_pdt_policy :
    ∀ (v : ℚ) (counters : List (DayKey × ℕ)) (now : ℕ),
      ((25000 : ℚ) ≤ v →
        account_equity_and_pdt_check (Except.ok v) counters now =
          (true, "Account >= $25k, no PDT restrictions")) ∧
      (v < 25000 →
        ((account_equity_and_pdt_check (Except.ok v) counters now).1 = true ↔
            day_trades_in_7_days counters now < 3) ∧
          (account_equity_and_pdt_check (Except.ok v) counters now).2 ≠ "") := by
  intro v counters now
  constructor
  · intro h
    simp [account_equity_and_pdt_check, h]
  · intro h
    have hlt : ¬ ((25000 : ℚ) ≤ v) := not_le.mpr h
    by_cases h3 : 3 ≤ day_trades_in_7_days counters now
    · constructor
      · simp only [account_equity_and_pdt_check, if_neg hlt, if_pos h3]
        constructor
        · intro hfalse
          exact absurd hfalse (by decide)
        · intro hn
          omega
      · simp [account_equity_and_pdt_check, hlt, h3]
    · constructor
      · simp only [account_equity_and_pdt_check, if_neg hlt, if_neg h3]
        constructor
        · intro _
          omega
        · intro _
          trivial
      · simp only [account_equity_and_pdt_check, if_neg hlt, if_neg h3]
        exact append_ne_empty_left _ _ (data_append_ne "Used " _ (by decide))

/-- Witness for C5 at concrete inputs: equity 30000 with a saturated ledger is
allowed; equity 10000 with 3 day trades today is denied (the spec's
"PDT block scenario"); equity 10000 with an empty ledger is allowed. -/
theorem C5_equity_pdt_policy_witness :
    ((25000 : ℚ) ≤ 30000 ∧
      account_equity_and_pdt_check (Except.ok 30000) [(some 20000, 5)] (20000 * secondsPerDay) =
        (true, "Account >= $25k, no PDT restrictions")) ∧
    ((10000 : ℚ) < 25000 ∧
      ((account_equity_and_pdt_check (Except.ok 10000) [(some 20000, 3)] (20000 * secondsPerDay)).1 = true ↔
        day_trades_in_7_days [(some 20000, 3)] (20000 * secondsPerDay) < 3)) := by
  constructor
  · exact ⟨by norm_num, (C5_equity_pdt_policy 30000 [(some 20000, 5)] (20000 * secondsPerDay)).1 (by norm_num)⟩
  · exact ⟨by norm_num, ((C5_equity_pdt_policy 10000 [(some 20000, 3)] (20000 * secondsPerDay)).2 (by norm_num)).1⟩

/-- C7 counterexample: the in-code rolling sum has no upper bound, so a
future-dated key (30 days ahead of `now`) is counted, while the claim's
"exactly the counters whose date keys fall within the last 7 calendar days"
(spec-side `rolling_sum_window`) excludes it. -/
theorem C7_counterexample :
    day_trades_in_7_days C7cexCounters C7now = 4 ∧
    rolling_sum_window C7cexCounters C7now = 0 ∧
    day_trades_in_7_days C7cexCounters C7now ≠ rolling_sum_window C7cexCounters C7now := by
  refine ⟨by decide, by decide, by decide⟩

/-- C7 amended: the rolling sum counts exactly the counters whose keys parse to
a date whose midnight is at or after `now - 7 days` — a lower bound only, so a
future-dated key would also be counted; unparseable keys are skipped without
raising; on ledgers with no future-dated keys (all reachable ones) it agrees
with the spec's two-sided window; and on the spec's test vector it returns 3. -/
theorem C7_rolling_sum_lower_bound_only :
    (∀ (counters : List (DayKey × ℕ)) (now : ℕ),
        day_trades_in_7_days counters now =
          ((counters.filter (inWindowLower now)).map Prod.snd).sum) ∧
    (∀ (c : ℕ) (cs : List (DayKey × ℕ)) (now : ℕ),
        day_trades_in_7_days ((none, c) :: cs) now = day_trades_in_7_days cs now) ∧
    (∀ (counters : List (DayKey × ℕ)) (now : ℕ),
        (∀ kv ∈ counters, keyNotFuture now kv = true) →
        day_trades_in_7_days counters now = rolling_sum_window counters now) ∧
    day_trades_in_7_days C7vector C7now = 3 := by
  refine ⟨?_, ?_, ?_, by decide⟩
  · intro counters now
    simpa using dt7_foldl_acc now counters 0
  · intro c cs now
    rfl
  · intro counters now hpast
    have hfil : counters.filter (inWindowLower now) = counters.filter (inWindowSpec now) := by
      apply List.filter_congr
      intro kv hk
      obtain ⟨k, c⟩ := kv
      cases k with
      | none => rfl
      | some d =>
        have hd := hpast (some d, c) hk
        simp only [keyNotFuture, decide_eq_true_eq] at hd
        simp [inWindowLower, inWindowSpec, hd]
    have h1 : day_trades_in_7_days counters now =
        ((counters.filter (inWindowLower now)).map Prod.snd).sum := by
      simpa using dt7_foldl_acc now counters 0
    rw [h1, hfil]
    rfl

/-- Witness for C7's amended claim at the spec's test vector, which contains no
future-dated key. -/
theorem C7_rolling_sum_lower_bound_only_witness :
    (∀ kv ∈ C7vector, keyNotFuture C7now kv = true) ∧
    day_trades_in_7_days C7vector C7now = rolling_sum_window C7vector C7now :=
  ⟨by decide, C7_rolling_sum_lower_bound_only.2.2.1 C7vector C7now (by decide)⟩

/-- C9: loading the persisted ticket-to-order store never raises; an absent
file, a corrupt file (deserialization raises), or a non-integer key each yield
the empty mapping plus a logged warning, so startup proceeds with an empty
store.  A well-formed file loads without the warning. -/
theorem C9_load_failure_yields_empty_store :
    load_trade_mapping none = ([], true) ∧
    (∀ (e : Unit), load_trade_mapping (some (Except.error e)) = ([], true)) ∧
    (∀ (pre suf : List (Option ℕ × ℤ)) (v : ℤ),
        load_trade_mapping (some (Except.ok (pre ++ (none, v) :: suf))) = ([], true)) ∧
    load_trade_mapping (some (Except.ok [(some 7, 11), (some 9, 13)])) =
      ([(7, 11), (9, 13)], false) := by
  refine ⟨rfl, fun e => rfl, ?_, by decide⟩
  intro pre suf v
  have hk : intKeys (pre ++ (none, v) :: suf) = none := by
    induction pre with
    | nil => rfl
    | cons kv r ih =>
      obtain ⟨k, w⟩ := kv
      cases k with
      | none => rfl
      | some n =>
        have hm : intKeys ((some n, w) :: (r ++ (none, v) :: suf)) =
            match intKeys (r ++ (none, v) :: suf) with
            | none => none
            | some m => some ((n, w) :: m) := rfl
        rw [List.cons_append, hm, ih]
  simp only [load_trade_mapping, hk]

theorem mdom_cons {α : Type} (k : ℕ) (v : α) (r : List (ℕ × α)) :
    mdom ((k, v) :: r) = insert k (mdom r) := by
  simp [mdom]

theorem mlookup_cons {α : Type} (k : ℕ) (v : α) (r : List (ℕ × α)) (t : ℕ) :
    mlookup ((k, v) :: r) t = if k = t then some v else mlookup r t := rfl

theorem merase_cons {α : Type} (k : ℕ) (v : α) (r : List (ℕ × α)) (t : ℕ) :
    merase ((k, v) :: r) t = if k = t then merase r t else (k, v) :: merase r t := rfl

theorem mset_cons {α : Type} (k : ℕ) (w : α) (r : List (ℕ × α)) (t : ℕ) (v : α) :
    mset ((k, w) :: r) t v = if k = t then (t, v) :: r else (k, w) :: mset r t v := rfl

theorem mlookup_merase_self {α : Type} (m : List (ℕ × α)) (t : ℕ) :
    mlookup (merase m t) t = none := by
  induction m with
  | nil => rfl
  | cons kv r ih =>
    obtain ⟨k, v⟩ := kv
    rw [merase_cons]
    by_cases hk : k = t
    · rw [if_pos hk]
      exact ih
    · rw [if_neg hk, mlookup_cons, if_neg hk]
      exact ih

theorem mlookup_merase_ne {α : Type} (m : List (ℕ × α)) (c t : ℕ) (h : t ≠ c) :
    mlookup (merase m c) t = mlookup m t := by
  induction m with
  | nil => rfl
  | cons kv r ih =>
    obtain ⟨k, v⟩ := kv
    rw [merase_cons]
    by_cases hk : k = c
    · have hkt : k ≠ t := fun he => h (he ▸ hk : t = c)
      rw [if_pos hk, mlookup_cons, if_neg hkt]
      exact ih
    · rw [if_neg hk, mlookup_cons, mlookup_cons]
      by_cases hkt : k = t
      · rw [if_pos hkt, if_pos hkt]
      · rw [if_neg hkt, if_neg hkt]
        exact ih

theorem mlookup_mset_self {α : Type} (m : List (ℕ × α)) (t : ℕ) (v : α) :
    mlookup (mset m t v) t = some v := by
  induction m with
  | nil => simp [mset, mlookup]
  | cons kv r ih =>
    obtain ⟨k, w⟩ := kv
    rw [mset_cons]
    by_cases hk : k = t
    · rw [if_pos hk, mlookup_cons, if_pos rfl]
    · rw [if_neg hk, mlookup_cons, if_neg hk]
      exact ih

theorem mlookup_mset_ne {α : Type} (m : List (ℕ × α)) (c t : ℕ) (v : α) (h : t ≠ c) :
    mlookup (mset m c v) t = mlookup m t := by
  induction m with
  | nil =>
    show (if c = t then some v else none) = none
    rw [if_neg (fun he => h he.symm)]
  | cons kv r ih =>
    obtain ⟨k, w⟩ := kv
    rw [mset_cons]
    by_cases hk : k = c
    · rw [if_pos hk, mlookup_cons, mlookup_cons, if_neg (fun he => h he.symm),
        if_neg (fun he : k = t => h (he ▸ hk : t = c))]
    · rw [if_neg hk, mlookup_cons, mlookup_cons]
      by_cases hkt : k = t
      · rw [if_pos hkt, if_pos hkt]
      · rw [if_neg hkt, if_neg hkt]
        exact ih

theorem mem_mdom {α : Type} (m : List (ℕ × α)) (t : ℕ) :
    t ∈ mdom m ↔ mlookup m t ≠ none := by
  induction m with
  | nil => simp [mdom, mlookup]
  | cons kv r ih =>
    obtain ⟨k, v⟩ := kv
    rw [mdom_cons, mlookup_cons, Finset.mem_insert]
    by_cases hk : k = t
    · subst hk
      simp
    · rw [if_neg hk]
      constructor
      · rintro (he | hm)
        · exact absurd he.symm hk
        · exact ih.mp hm
      · intro hl
        exact Or.inr (ih.mpr hl)

theorem mdom_mset {α : Type} (m : List (ℕ × α)) (t : ℕ) (v : α) :
    mdom (mset m t v) = insert t (mdom m) := by
  induction m with
  | nil => simp [mset, mdom]
  | cons kv r ih =>
    obtain ⟨k, w⟩ := kv
    rw [mset_cons]
    by_cases hk : k = t
    · subst hk
      rw [if_pos rfl, mdom_cons, mdom_cons, Finset.insert_idem]
    · rw [if_neg hk, mdom_cons, mdom_cons, ih]
      exact Finset.Insert.comm k t (mdom r)

theorem mdom_merase {α : Type} (m : List (ℕ × α)) (t : ℕ) :
    mdom (merase m t) = (mdom m).erase t := by
  induction m with
  | nil => simp [merase, mdom]
  | cons kv r ih =>
    obtain ⟨k, v⟩ := kv
    rw [merase_cons]
    by_cases hk : k = t
    · subst hk
      rw [if_pos rfl, mdom_cons, ih, Finset.erase_insert_eq_erase]
    · rw [if_neg hk, mdom_cons, mdom_cons, ih, Finset.erase_insert_of_ne hk]

/-! ### Event-shape lemmas for the translation functions -/

theorem copy_evs_only_submitOpen (env : CopyEnv) (counters : List (DayKey × ℕ))
    (now : ℕ) (trade : MtPosition) :
    ∀ e ∈ (copy_mt5_trade_to_robinhood env counters now trade).2,
      ∃ req, e = Ev.submitOpen trade.ticket req := by
  obtain ⟨tz, eq, lp, bb, po⟩ := env
  unfold copy_mt5_trade_to_robinhood
  dsimp only
  by_cases h1 : is_market_open_now tz = false
  · rw [if_pos h1]
    intro e he
    exact absurd he (List.not_mem_nil e)
  · rw [if_neg h1]
    by_cases h2 : (account_equity_and_pdt_check eq counters now).1 = false
    · rw [if_pos h2]
      intro e he
      exact absurd he (List.not_mem_nil e)
    · rw [if_neg h2]
      cases lp with
      | error err =>
        intro e he
        exact absurd he (List.not_mem_nil e)
      | ok last_price =>
        cases bb with
        | error err =>
          intro e he
          exact absurd he (List.not_mem_nil e)
        | ok ob =>
          cases ob with
          | none =>
            intro e he
            exact absurd he (List.not_mem_nil e)
          | some b =>
            dsimp only
            split
            · intro e he
              rw [List.mem_singleton] at he
              exact ⟨_, he⟩
            · intro e he
              rw [List.mem_singleton] at he
              exact ⟨_, he⟩

theorem close_evs_only_submitClose (env : CloseEnv) (counters : List (DayKey × ℕ))
    (now : ℕ) (t : ℕ) (rh_info : RhInfo) :
    ∀ e ∈ (close_robinhood_position env counters now t rh_info).2,
      ∃ req, e = Ev.submitClose t req := by
  obtain ⟨tz, eq, ba, pc⟩ := env
  unfold close_robinhood_position
  dsimp only
  by_cases h1 : is_market_open_now tz = false
  · rw [if_pos h1]
    intro e he
    exact absurd he (List.not_mem_nil e)
  · rw [if_neg h1]
    by_cases h2 : (account_equity_and_pdt_check eq counters now).1 = false
    · rw [if_pos h2]
      intro e he
      exact absurd he (List.not_mem_nil e)
    · rw [if_neg h2]
      cases ba with
      | error err =>
        intro e he
        exact absurd he (List.not_mem_nil e)
      | ok oa =>
        cases oa with
        | none =>
          intro e he
          exact absurd he (List.not_mem_nil e)
        | some a =>
          intro e he
          rw [List.mem_singleton] at he
          exact ⟨_, he⟩

theorem copy_evs_counts (env : CopyEnv) (counters : List (DayKey × ℕ))
    (now : ℕ) (trade : MtPosition) (t : ℕ) :
    createCount t (copy_mt5_trade_to_robinhood env counters now trade).2 = 0 ∧
    delCount t (copy_mt5_trade_to_robinhood env counters now trade).2 = 0 ∧
    caCount t (copy_mt5_trade_to_robinhood env counters now trade).2 = 0 := by
  refine ⟨?_, ?_, ?_⟩ <;>
  · simp only [createCount, delCount, caCount]
    rw [List.countP_eq_zero]
    intro e he
    obtain ⟨req, rfl⟩ := copy_evs_only_submitOpen env counters now trade e he
    simp

theorem close_evs_counts (env : CloseEnv) (counters : List (DayKey × ℕ))
    (now : ℕ) (t0 : ℕ) (rh_info : RhInfo) (t : ℕ) :
    createCount t (close_robinhood_position env counters now t0 rh_info).2 = 0 ∧
    delCount t (close_robinhood_position env counters now t0 rh_info).2 = 0 ∧
    caCount t (close_robinhood_position env counters now t0 rh_info).2 = 0 := by
  refine ⟨?_, ?_, ?_⟩ <;>
  · simp only [createCount, delCount, caCount]
    rw [List.countP_eq_zero]
    intro e he
    obtain ⟨req, rfl⟩ := close_evs_only_submitClose env counters now t0 rh_info e he
    simp

/-! ### Counter lemmas -/

theorem cget_cincr_self (cnt : List (DayKey × ℕ)) (k : DayKey) :
    cget (cincr cnt k) k = cget cnt k + 1 := by
  induction cnt with
  | nil => simp [cincr, cget]
  | cons kv r ih =>
    obtain ⟨k0, c⟩ := kv
    by_cases hk : k0 = k
    · subst hk
      show cget (if k0 = k0 then (k0, c + 1) :: r else (k0, c) :: cincr r k0) k0 =
        (if k0 = k0 then c else cget r k0) + 1
      rw [if_pos rfl, if_pos rfl]
      show (if k0 = k0 then c + 1 else cget r k0) = c + 1
      rw [if_pos rfl]
    · show cget (if k0 = k then (k0, c + 1) :: r else (k0, c) :: cincr r k) k =
        (if k0 = k then c else cget r k) + 1
      rw [if_neg hk, if_neg hk]
      show (if k0 = k then c else cget (cincr r k) k) = cget r k + 1
      rw [if_neg hk, ih]

/-- C8: for every pair of ticket sets observed by a tick, deltas are computed
by set difference on ticket identifiers only: `newly_opened` holds exactly the
tickets in `current` but not `previous`, `newly_closed` exactly those in
`previous` but not `current` (as ticket sets, `current \ previous` and
`previous \ current`); a ticket present in both sets is in neither delta; and
previous = {1,2,3}, current = {2,3,4} gives newly_opened = {4} and
newly_closed = {1}. -/
theorem C8_diff_set_semantics :
    (∀ (previous current : List ℕ) (t : ℕ),
        (t ∈ newTicketsOf previous current ↔ t ∈ current ∧ t ∉ previous) ∧
        (t ∈ closedTicketsOf previous current ↔ t ∈ previous ∧ t ∉ current) ∧
        (t ∈ previous → t ∈ current →
          t ∉ newTicketsOf previous current ∧ t ∉ closedTicketsOf previous current)) ∧
    (∀ (previous current : List ℕ),
        (newTicketsOf previous current).toFinset =
          current.toFinset \ previous.toFinset ∧
        (closedTicketsOf previous current).toFinset =
          previous.toFinset \ current.toFinset) ∧
    newTicketsOf [1, 2, 3] [2, 3, 4] = [4] ∧
    closedTicketsOf [1, 2, 3] [2, 3, 4] = [1] := by
  refine ⟨?_, ?_, by decide, by decide⟩
  · intro previous current t
    refine ⟨?_, ?_, ?_⟩
    · simp [newTicketsOf]
    · simp [closedTicketsOf]
    · intro h1 h2
      constructor
      · simp [newTicketsOf]
        intro _
        exact h1
      · simp [closedTicketsOf]
        intro _
        exact h2
  · intro previous current
    constructor
    · ext t
      simp [newTicketsOf]
    · ext t
      simp [closedTicketsOf]

/-- Witness for C8 at a concrete instance: ticket 2 is in both snapshots and
produces no delta. -/
theorem C8_diff_set_semantics_witness :
    2 ∈ [1, 2, 3] ∧ 2 ∈ [2, 3, 4] ∧
    (2 ∉ newTicketsOf [1, 2, 3] [2, 3, 4] ∧ 2 ∉ closedTicketsOf [1, 2, 3] [2, 3, 4]) :=
  ⟨by decide, by decide,
    (C8_diff_set_semantics.1 [1, 2, 3] [2, 3, 4] 2).2.2 (by decide) (by decide)⟩

/-- C3 counterexample: `MetaTrader5.positions_get()` signals an error by
returning `None` (its documented error channel; an exception is the other
failure mode).  On a tick in which the fetch yields `None` while a mirrored
position with ticket 1 is open, the code treats the failed fetch as the empty
snapshot: `previous_tickets` collapses from {1} to the empty set, a
`newly_closed` delta {1} is produced, the record of ticket 1 is deleted and
today's day-trade counter is incremented — the tick is not a no-op, refuting
the claim for this failure mode. -/
theorem C3_counterexample :
    C3envNone.fetch = Except.ok none ∧
    C3state.old_tickets = [1] ∧
    (rhTick C3envNone C3state).1.old_tickets = [] ∧
    closedTicketsOf C3state.old_tickets
      (currentTicketsOf ((none : Option (List MtPosition)).getD [])) = [1] ∧
    (rhTick C3envNone C3state).1.ticket_to_rh = [] ∧
    Ev.delete 1 ∈ (rhTick C3envNone C3state).2 ∧
    cget (rhTick C3envNone C3state).1.day_trades_count (some 0) = 1 ∧
    cget C3state.day_trades_count (some 0) = 0 := by
  refine ⟨rfl, rfl, by decide, by decide, by decide, by decide, by decide, rfl⟩

/-- C3 amended: only a fetch failure signalled by a raised exception makes the
tick a no-op — state (previous tickets, store, day-trade counters) unchanged
and no events — in both copiers; a failure signalled by the `None` return
value is instead treated as an empty snapshot (all positions closed). -/
theorem C3_exception_tick_is_noop :
    (∀ (env : RhTickEnv) (s : RhState) (e : Unit),
        env.fetch = Except.error e → rhTick env s = (s, [])) ∧
    (∀ (env : TlEnv) (s : TlState) (e : Unit),
        env.fetch = Except.error e → copy_trades_tick env s = (s, [])) := by
  constructor
  · intro env s e h
    unfold rhTick
    rw [h]
  · intro env s e h
    unfold copy_trades_tick
    rw [h]

/-- Witness for C3's amended claim: a concrete raising fetch leaves the
concrete state untouched. -/
theorem C3_exception_tick_is_noop_witness :
    C3envErr.fetch = Except.error () ∧ rhTick C3envErr C3state = (C3state, []) :=
  ⟨rfl, C3_exception_tick_is_noop.1 C3envErr C3state () rfl⟩

/-- C2 counterexample: in the TradeLocker copier a ticket (1) that left the
source snapshot and has a MirrorRecord (order id 42) has its close attempted,
the destination close fails, and the record is **not** removed — refuting
"removed whether the destination close submission succeeded or failed". -/
theorem C2_counterexample :
    mlookup C2tlState.ticket_to_tradelocker 1 = some 42 ∧
    closedTicketsOf C2tlState.old_tickets (currentTlTicketsOf []) = [1] ∧
    (copy_trades_tick C2tlEnv C2tlState).2 = [Ev.closeAttempt 1] ∧
    C2tlEnv.closeOrder 42 = false ∧
    mlookup (copy_trades_tick C2tlEnv C2tlState).1.ticket_to_tradelocker 1 = some 42 := by
  refine ⟨rfl, by decide, by decide, rfl, by decide⟩

/-! ### General trace lemmas -/

theorem liveAfter_append (live : Finset ℕ) (l r : List Ev) :
    liveAfter live (l ++ r) = liveAfter (liveAfter live l) r := by
  simp [liveAfter, List.foldl_append]

theorem liveAfter_of_no_cd (tr : List Ev)
    (hc : ∀ t, Ev.create t ∉ tr) (hd : ∀ t, Ev.delete t ∉ tr) (live : Finset ℕ) :
    liveAfter live tr = live := by
  induction tr generalizing live with
  | nil => rfl
  | cons e r ih =>
    have hstep : liveStep live e = live := by
      cases e with
      | create t => exact absurd (List.mem_cons_self _ _) (hc t)
      | delete t => exact absurd (List.mem_cons_self _ _) (hd t)
      | closeAttempt t => rfl
      | submitOpen t req => rfl
      | submitClose t req => rfl
    show liveAfter (liveStep live e) r = live
    rw [hstep]
    exact ih (fun t ht => hc t (List.mem_cons_of_mem _ ht))
      (fun t ht => hd t (List.mem_cons_of_mem _ ht)) live

theorem createsFresh_of_no_create (tr : List Ev)
    (hc : ∀ t, Ev.create t ∉ tr) (live : Finset ℕ) : createsFresh live tr := by
  induction tr generalizing live with
  | nil => trivial
  | cons e r ih =>
    refine ⟨fun t het => absurd (het ▸ List.mem_cons_self e r) (hc t), ?_⟩
    exact ih (fun t ht => hc t (List.mem_cons_of_mem _ ht)) (liveStep live e)

theorem createsFresh_append (live : Finset ℕ) (l r : List Ev)
    (hl : createsFresh live l) (hr : createsFresh (liveAfter live l) r) :
    createsFresh live (l ++ r) := by
  induction l generalizing live with
  | nil => exact hr
  | cons e l2 ih =>
    obtain ⟨h1, h2⟩ := hl
    exact ⟨h1, ih (liveStep live e) h2 hr⟩

theorem createsFresh_append_right (live : Finset ℕ) (l r : List Ev)
    (h : createsFresh live (l ++ r)) : createsFresh (liveAfter live l) r := by
  induction l generalizing live with
  | nil => exact h
  | cons e l2 ih => exact ih (liveStep live e) h.2

theorem delete_of_not_live (l : List Ev) :
    ∀ (live : Finset ℕ) (t : ℕ), t ∈ live → t ∉ liveAfter live l → Ev.delete t ∈ l := by
  induction l with
  | nil =>
    intro live t h1 h2
    exact absurd h1 h2
  | cons e r ih =>
    intro live t h1 h2
    by_cases hdel : e = Ev.delete t
    · exact hdel ▸ List.mem_cons_self _ _
    · refine List.mem_cons_of_mem _ (ih (liveStep live e) t ?_ h2)
      cases e with
      | create u => exact Finset.mem_insert_of_mem h1
      | delete u =>
        have hut : t ≠ u := fun hu => hdel (by rw [hu])
        exact Finset.mem_erase_of_ne_of_mem hut h1
      | closeAttempt u => exact h1
      | submitOpen u req => exact h1
      | submitClose u req => exact h1

theorem createsFresh_NoSecond (tr : List Ev) (live : Finset ℕ)
    (h : createsFresh live tr) : NoSecondCreateWithoutDelete tr := by
  intro t l1 l2 l3 heq
  subst heq
  have h2 := createsFresh_append_right live (l1 ++ (Ev.create t :: l2)) (Ev.create t :: l3) h
  have hnotin := h2.1 t rfl
  rw [liveAfter_append] at hnotin
  have hnotin2 : t ∉ liveAfter (insert t (liveAfter live l1)) l2 := hnotin
  exact delete_of_not_live l2 (insert t (liveAfter live l1)) t
    (Finset.mem_insert_self t (liveAfter live l1)) hnotin2

theorem count_le_one_NoSecond (tr : List Ev)
    (h : ∀ t, createCount t tr ≤ 1) : NoSecondCreateWithoutDelete tr := by
  intro t l1 l2 l3 heq
  exfalso
  have hc := h t
  rw [heq] at hc
  simp only [createCount, List.countP_append, List.countP_cons] at hc
  simp at hc
  omega

/-! ### Step equations for the loop functions -/

theorem rhOpens_nil (env : RhTickEnv) (ps : List MtPosition)
    (counters : List (DayKey × ℕ)) (m : List (ℕ × RhInfo × ℕ)) :
    rhOpens env ps counters [] m = (m, []) := rfl

theorem rhOpens_cons_skip (env : RhTickEnv) (ps : List MtPosition)
    (counters : List (DayKey × ℕ)) (nt : ℕ) (rest : List ℕ) (m : List (ℕ × RhInfo × ℕ))
    (h : findPos ps nt = none) :
    rhOpens env ps counters (nt :: rest) m = rhOpens env ps counters rest m := by
  conv_lhs => rw [rhOpens]
  rw [h]

theorem rhOpens_cons_fail (env : RhTickEnv) (ps : List MtPosition)
    (counters : List (DayKey × ℕ)) (nt : ℕ) (rest : List ℕ) (m : List (ℕ × RhInfo × ℕ))
    (pos : MtPosition) (hf : findPos ps nt = some pos)
    (hc : (copy_mt5_trade_to_robinhood (env.openEnv nt) counters env.now pos).1 = none) :
    rhOpens env ps counters (nt :: rest) m =
      ((rhOpens env ps counters rest m).1,
        (copy_mt5_trade_to_robinhood (env.openEnv nt) counters env.now pos).2 ++
          (rhOpens env ps counters rest m).2) := by
  conv_lhs => rw [rhOpens]
  rw [hf]
  dsimp only
  rw [hc]

theorem rhOpens_cons_create (env : RhTickEnv) (ps : List MtPosition)
    (counters : List (DayKey × ℕ)) (nt : ℕ) (rest : List ℕ) (m : List (ℕ × RhInfo × ℕ))
    (pos : MtPosition) (rh_info : RhInfo) (hf : findPos ps nt = some pos)
    (hc : (copy_mt5_trade_to_robinhood (env.openEnv nt) counters env.now pos).1 =
      some rh_info) :
    rhOpens env ps counters (nt :: rest) m =
      ((rhOpens env ps counters rest (mset m nt (rh_info, env.now))).1,
        (copy_mt5_trade_to_robinhood (env.openEnv nt) counters env.now pos).2 ++
          [Ev.create nt] ++
          (rhOpens env ps counters rest (mset m nt (rh_info, env.now))).2) := by
  conv_lhs => rw [rhOpens]
  rw [hf]
  dsimp only
  rw [hc]

theorem rhCloses_nil (env : RhTickEnv) (m : List (ℕ × RhInfo × ℕ))
    (cnt : List (DayKey × ℕ)) : rhCloses env [] m cnt = (m, cnt, []) := rfl

theorem rhCloses_cons_skip (env : RhTickEnv) (ct : ℕ) (rest : List ℕ)
    (m : List (ℕ × RhInfo × ℕ)) (cnt : List (DayKey × ℕ))
    (h : mlookup m ct = none) :
    rhCloses env (ct :: rest) m cnt = rhCloses env rest m cnt := by
  conv_lhs => rw [rhCloses]
  rw [h]

theorem rhCloses_cons_proc (env : RhTickEnv) (ct : ℕ) (rest : List ℕ)
    (m : List (ℕ × RhInfo × ℕ)) (cnt : List (DayKey × ℕ)) (iv : RhInfo × ℕ)
    (h : mlookup m ct = some iv) :
    rhCloses env (ct :: rest) m cnt =
      ((rhCloses env rest (merase m ct)
          (record_day_trade_if_applicable cnt env.now iv.2)).1,
        (rhCloses env rest (merase m ct)
          (record_day_trade_if_applicable cnt env.now iv.2)).2.1,
        [Ev.closeAttempt ct] ++
          (close_robinhood_position (env.closeEnv ct) cnt env.now ct iv.1).2 ++
          [Ev.delete ct] ++
          (rhCloses env rest (merase m ct)
            (record_day_trade_if_applicable cnt env.now iv.2)).2.2) := by
  conv_lhs => rw [rhCloses]
  rw [h]

theorem tlOpens_nil (env : TlEnv) (ps : List TlPosition) (m : List (ℕ × ℤ)) :
    tlOpens env ps [] m = (m, []) := rfl

theorem tlOpens_cons_skip (env : TlEnv) (ps : List TlPosition) (t : ℕ)
    (rest : List ℕ) (m : List (ℕ × ℤ)) (h : findTlPos ps t = none) :
    tlOpens env ps (t :: rest) m = tlOpens env ps rest m := by
  conv_lhs => rw [tlOpens]
  rw [h]

theorem tlOpens_cons_magic (env : TlEnv) (ps : List TlPosition) (t : ℕ)
    (rest : List ℕ) (m : List (ℕ × ℤ)) (pos : TlPosition)
    (hf : findTlPos ps t = some pos) (hm : pos.magic ≠ MAGIC_NUMBER) :
    tlOpens env ps (t :: rest) m = tlOpens env ps rest m := by
  conv_lhs => rw [tlOpens]
  rw [hf]
  dsimp only
  rw [if_pos hm]

theorem tlOpens_cons_fail (env : TlEnv) (ps : List TlPosition) (t : ℕ)
    (rest : List ℕ) (m : List (ℕ × ℤ)) (pos : TlPosition)
    (hf : findTlPos ps t = some pos) (hm : ¬ pos.magic ≠ MAGIC_NUMBER)
    (ho : env.placeOrder t = none) :
    tlOpens env ps (t :: rest) m = tlOpens env ps rest m := by
  conv_lhs => rw [tlOpens]
  rw [hf]
  dsimp only
  rw [if_neg hm, ho]

theorem tlOpens_cons_create (env : TlEnv) (ps : List TlPosition) (t : ℕ)
    (rest : List ℕ) (m : List (ℕ × ℤ)) (pos : TlPosition) (oid : ℤ)
    (hf : findTlPos ps t = some pos) (hm : ¬ pos.magic ≠ MAGIC_NUMBER)
    (ho : env.placeOrder t = some oid) :
    tlOpens env ps (t :: rest) m =
      ((tlOpens env ps rest (mset m t oid)).1,
        Ev.create t :: (tlOpens env ps rest (mset m t oid)).2) := by
  conv_lhs => rw [tlOpens]
  rw [hf]
  dsimp only
  rw [if_neg hm, ho]

theorem tlCloses_nil (env : TlEnv) (m : List (ℕ × ℤ)) :
    tlCloses env [] m = (m, []) := rfl

theorem tlCloses_cons_skip (env : TlEnv) (t : ℕ) (rest : List ℕ)
    (m : List (ℕ × ℤ)) (h : mlookup m t = none) :
    tlCloses env (t :: rest) m = tlCloses env rest m := by
  conv_lhs => rw [tlCloses]
  rw [h]

theorem tlCloses_cons_success (env : TlEnv) (t : ℕ) (rest : List ℕ)
    (m : List (ℕ × ℤ)) (oid : ℤ) (h : mlookup m t = some oid)
    (hs : env.closeOrder oid = true) :
    tlCloses env (t :: rest) m =
      ((tlCloses env rest (merase m t)).1,
        Ev.closeAttempt t :: Ev.delete t :: (tlCloses env rest (merase m t)).2) := by
  conv_lhs => rw [tlCloses]
  rw [h]
  dsimp only
  rw [hs]
  rfl

theorem tlCloses_cons_fail (env : TlEnv) (t : ℕ) (rest : List ℕ)
    (m : List (ℕ × ℤ)) (oid : ℤ) (h : mlookup m t = some oid)
    (hs : env.closeOrder oid = false) :
    tlCloses env (t :: rest) m =
      ((tlCloses env rest m).1,
        Ev.closeAttempt t :: (tlCloses env rest m).2) := by
  conv_lhs => rw [tlCloses]
  rw [h]
  dsimp only
  rw [hs]
  rfl

/-! ### Count helpers -/

theorem caCount_append (t : ℕ) (a b : List Ev) :
    caCount t (a ++ b) = caCount t a + caCount t b := by
  simp [caCount, List.countP_append]

theorem delCount_append (t : ℕ) (a b : List Ev) :
    delCount t (a ++ b) = delCount t a + delCount t b := by
  simp [delCount, List.countP_append]

theorem createCount_append (t : ℕ) (a b : List Ev) :
    createCount t (a ++ b) = createCount t a + createCount t b := by
  simp [createCount, List.countP_append]

theorem caCount_ca (ct t : ℕ) : caCount t [Ev.closeAttempt ct] = if ct = t then 1 else 0 := by
  by_cases h : ct = t
  · subst h
    simp [caCount]
  · simp [caCount, h]

theorem delCount_del (ct t : ℕ) : delCount t [Ev.delete ct] = if ct = t then 1 else 0 := by
  by_cases h : ct = t
  · subst h
    simp [delCount]
  · simp [delCount, h]

theorem createCount_create (ct t : ℕ) :
    createCount t [Ev.create ct] = if ct = t then 1 else 0 := by
  by_cases h : ct = t
  · subst h
    simp [createCount]
  · simp [createCount, h]

theorem caCount_ca_zero (ct t : ℕ) : caCount t [Ev.delete ct] = 0 ∧
    createCount t [Ev.delete ct] = 0 ∧ delCount t [Ev.closeAttempt ct] = 0 ∧
    createCount t [Ev.closeAttempt ct] = 0 ∧ caCount t [Ev.create ct] = 0 ∧
    delCount t [Ev.create ct] = 0 := by
  refine ⟨?_, ?_, ?_, ?_, ?_, ?_⟩ <;> simp [caCount, createCount, delCount]

theorem createCount_eq_zero (t : ℕ) (tr : List Ev) (h : Ev.create t ∉ tr) :
    createCount t tr = 0 := by
  simp only [createCount]
  rw [List.countP_eq_zero]
  intro e he
  simp only [decide_eq_true_eq]
  intro heq
  exact h (heq ▸ he)

theorem create_mem_of_count_pos (t : ℕ) (tr : List Ev) (h : createCount t tr ≠ 0) :
    Ev.create t ∈ tr := by
  by_contra hmem
  exact h (createCount_eq_zero t tr hmem)

/-! ### Close-loop lemmas (Robinhood copier) -/

theorem close_evs_no_cd (env : CloseEnv) (counters : List (DayKey × ℕ)) (now : ℕ)
    (t0 : ℕ) (rh_info : RhInfo) (u : ℕ) :
    Ev.create u ∉ (close_robinhood_position env counters now t0 rh_info).2 ∧
    Ev.delete u ∉ (close_robinhood_position env counters now t0 rh_info).2 := by
  constructor <;>
  · intro hmem
    obtain ⟨req, heq⟩ := close_evs_only_submitClose env counters now t0 rh_info _ hmem
    simp at heq

theorem copy_evs_no_cd (env : CopyEnv) (counters : List (DayKey × ℕ)) (now : ℕ)
    (trade : MtPosition) (u : ℕ) :
    Ev.create u ∉ (copy_mt5_trade_to_robinhood env counters now trade).2 ∧
    Ev.delete u ∉ (copy_mt5_trade_to_robinhood env counters now trade).2 := by
  constructor <;>
  · intro hmem
    obtain ⟨req, heq⟩ := copy_evs_only_submitOpen env counters now trade _ hmem
    simp at heq

theorem rhCloses_map_shrink (env : RhTickEnv) :
    ∀ (cts : List ℕ) (m : List (ℕ × RhInfo × ℕ)) (cnt : List (DayKey × ℕ)) (t : ℕ),
      mlookup m t = none → mlookup (rhCloses env cts m cnt).1 t = none := by
  intro cts
  induction cts with
  | nil =>
    intro m cnt t h
    rw [rhCloses_nil]
    exact h
  | cons ct rest ih =>
    intro m cnt t h
    cases hml : mlookup m ct with
    | none =>
      rw [rhCloses_cons_skip env ct rest m cnt hml]
      exact ih m cnt t h
    | some iv =>
      rw [rhCloses_cons_proc env ct rest m cnt iv hml]
      dsimp only
      apply ih
      by_cases hct : t = ct
      · subst hct
        exact mlookup_merase_self m t
      · rw [mlookup_merase_ne m ct t hct]
        exact h

theorem rhCloses_processed (env : RhTickEnv) :
    ∀ (cts : List ℕ) (m : List (ℕ × RhInfo × ℕ)) (cnt : List (DayKey × ℕ))
      (t : ℕ) (iv : RhInfo × ℕ), t ∈ cts → mlookup m t = some iv →
      Ev.closeAttempt t ∈ (rhCloses env cts m cnt).2.2 ∧
      Ev.delete t ∈ (rhCloses env cts m cnt).2.2 ∧
      mlookup (rhCloses env cts m cnt).1 t = none := by
  intro cts
  induction cts with
  | nil =>
    intro m cnt t iv hmem
    exact absurd hmem (List.not_mem_nil t)
  | cons ct rest ih =>
    intro m cnt t iv hmem hml
    by_cases hct : t = ct
    · subst hct
      rw [rhCloses_cons_proc env t rest m cnt iv hml]
      dsimp only
      refine ⟨?_, ?_, ?_⟩
      · exact List.mem_append_left _ (List.mem_append_left _
          (List.mem_append_left _ (List.mem_singleton_self _)))
      · exact List.mem_append_left _ (List.mem_append_right _ (List.mem_singleton_self _))
      · exact rhCloses_map_shrink env rest (merase m t) _ t (mlookup_merase_self m t)
    · have hrest : t ∈ rest := by
        cases List.mem_cons.mp hmem with
        | inl h => exact absurd h hct
        | inr h => exact h
      cases hml2 : mlookup m ct with
      | none =>
        rw [rhCloses_cons_skip env ct rest m cnt hml2]
        exact ih m cnt t iv hrest hml
      | some iv2 =>
        rw [rhCloses_cons_proc env ct rest m cnt iv2 hml2]
        dsimp only
        have hml3 : mlookup (merase m ct) t = some iv := by
          rw [mlookup_merase_ne m ct t hct]
          exact hml
        obtain ⟨h1, h2, h3⟩ := ih (merase m ct)
          (record_day_trade_if_applicable cnt env.now iv2.2) t iv hrest hml3
        exact ⟨List.mem_append_right _ h1, List.mem_append_right _ h2, h3⟩

theorem rhCloses_counts (env : RhTickEnv) :
    ∀ (cts : List ℕ) (m : List (ℕ × RhInfo × ℕ)) (cnt : List (DayKey × ℕ)) (t : ℕ),
      caCount t (rhCloses env cts m cnt).2.2 = delCount t (rhCloses env cts m cnt).2.2 ∧
      createCount t (rhCloses env cts m cnt).2.2 = 0 := by
  intro cts
  induction cts with
  | nil =>
    intro m cnt t
    exact ⟨rfl, rfl⟩
  | cons ct rest ih =>
    intro m cnt t
    cases hml : mlookup m ct with
    | none =>
      rw [rhCloses_cons_skip env ct rest m cnt hml]
      exact ih m cnt t
    | some iv =>
      rw [rhCloses_cons_proc env ct rest m cnt iv hml]
      dsimp only
      obtain ⟨ih1, ih2⟩ := ih (merase m ct) (record_day_trade_if_applicable cnt env.now iv.2) t
      have hc := close_evs_counts (env.closeEnv ct) cnt env.now ct iv.1 t
      constructor
      · rw [caCount_append, caCount_append, caCount_append,
          delCount_append, delCount_append, delCount_append,
          caCount_ca, delCount_del, hc.2.2, hc.2.1, ih1,
          (caCount_ca_zero ct t).1, (caCount_ca_zero ct t).2.2.1]
        omega
      · rw [createCount_append, createCount_append, createCount_append,
          hc.1, ih2, (caCount_ca_zero ct t).2.2.2.1,
          createCount_eq_zero t [Ev.delete ct] (by simp)]

theorem dInd_of_lookup_some {α : Type} (m : List (ℕ × α)) (t : ℕ) (v : α)
    (h : mlookup m t = some v) : dInd t m = 1 := by
  unfold dInd
  rw [if_pos ((mem_mdom m t).mpr (by rw [h]; exact fun hc => Option.noConfusion hc))]

theorem dInd_merase_self {α : Type} (m : List (ℕ × α)) (t : ℕ) :
    dInd t (merase m t) = 0 := by
  unfold dInd
  rw [if_neg]
  rw [mdom_merase]
  exact Finset.not_mem_erase t (mdom m)

theorem dInd_merase_ne {α : Type} (m : List (ℕ × α)) (c t : ℕ) (h : t ≠ c) :
    dInd t (merase m c) = dInd t m := by
  unfold dInd
  rw [mdom_merase]
  by_cases hm : t ∈ mdom m
  · rw [if_pos (Finset.mem_erase_of_ne_of_mem h hm), if_pos hm]
  · rw [if_neg (fun hc => hm (Finset.mem_of_mem_erase hc)), if_neg hm]

theorem dInd_mset_self {α : Type} (m : List (ℕ × α)) (t : ℕ) (v : α) :
    dInd t (mset m t v) = 1 := by
  unfold dInd
  rw [mdom_mset, if_pos (Finset.mem_insert_self t (mdom m))]

theorem dInd_mset_ne {α : Type} (m : List (ℕ × α)) (c t : ℕ) (v : α) (h : t ≠ c) :
    dInd t (mset m c v) = dInd t m := by
  unfold dInd
  rw [mdom_mset]
  by_cases hm : t ∈ mdom m
  · rw [if_pos (Finset.mem_insert_of_mem hm), if_pos hm]
  · rw [if_neg (fun hc => (Finset.mem_insert.mp hc).elim h hm), if_neg hm]

theorem rhCloses_ca_bound (env : RhTickEnv) :
    ∀ (cts : List ℕ) (m : List (ℕ × RhInfo × ℕ)) (cnt : List (DayKey × ℕ)) (t : ℕ),
      caCount t (rhCloses env cts m cnt).2.2 + dInd t (rhCloses env cts m cnt).1 ≤
        dInd t m := by
  intro cts
  induction cts with
  | nil =>
    intro m cnt t
    simp [rhCloses_nil, caCount]
  | cons ct rest ih =>
    intro m cnt t
    cases hml : mlookup m ct with
    | none =>
      rw [rhCloses_cons_skip env ct rest m cnt hml]
      exact ih m cnt t
    | some iv =>
      rw [rhCloses_cons_proc env ct rest m cnt iv hml]
      dsimp only
      have hc := (close_evs_counts (env.closeEnv ct) cnt env.now ct iv.1 t).2.2
      have ihb := ih (merase m ct) (record_day_trade_if_applicable cnt env.now iv.2) t
      rw [caCount_append, caCount_append, caCount_append, caCount_ca, hc,
        (caCount_ca_zero ct t).1]
      by_cases hct : ct = t
      · subst hct
        rw [if_pos rfl, dInd_of_lookup_some m ct iv hml]
        have h0 := dInd_merase_self m ct
        omega
      · rw [if_neg hct, dInd_merase_ne m ct t (fun he => hct he.symm)] at *
        omega

theorem rhCloses_counters (env : RhTickEnv) :
    ∀ (cts : List ℕ) (m : List (ℕ × RhInfo × ℕ)) (cnt : List (DayKey × ℕ)),
      cts.Nodup →
      cget (rhCloses env cts m cnt).2.1 (some (dayOf env.now)) =
        cget cnt (some (dayOf env.now)) + sameDayCloses m env.now cts := by
  intro cts
  induction cts with
  | nil =>
    intro m cnt hnd
    simp [rhCloses_nil, sameDayCloses]
  | cons ct rest ih =>
    intro m cnt hnd
    have hnd2 := List.nodup_cons.mp hnd
    have hsame : sameDayCloses m env.now (ct :: rest) =
        (if (match mlookup m ct with
              | none => false
              | some iv => decide (dayOf env.now = dayOf iv.2)) = true then 1 else 0) +
          sameDayCloses m env.now rest := by
      simp only [sameDayCloses, List.countP_cons]
      omega
    cases hml : mlookup m ct with
    | none =>
      rw [rhCloses_cons_skip env ct rest m cnt hml, hsame, hml]
      rw [ih m cnt hnd2.2]
      simp
    | some iv =>
      rw [rhCloses_cons_proc env ct rest m cnt iv hml, hsame, hml]
      dsimp only
      rw [ih (merase m ct) (record_day_trade_if_applicable cnt env.now iv.2) hnd2.2]
      have hrest : sameDayCloses (merase m ct) env.now rest = sameDayCloses m env.now rest := by
        apply List.countP_congr
        intro x hx
        have hxct : x ≠ ct := fun he => hnd2.1 (he ▸ hx)
        rw [mlookup_merase_ne m ct x hxct]
      rw [hrest]
      unfold record_day_trade_if_applicable
      by_cases hday : dayOf env.now = dayOf iv.2
      · rw [if_pos hday, cget_cincr_self]
        rw [if_pos (by rw [decide_eq_true_eq]; exact hday)]
        omega
      · rw [if_neg hday, if_neg (by rw [decide_eq_true_eq]; exact hday)]
        omega

theorem rhCloses_closeEnv_indep (env1 env2 : RhTickEnv) (hnow : env1.now = env2.now) :
    ∀ (cts : List ℕ) (m : List (ℕ × RhInfo × ℕ)) (cnt : List (DayKey × ℕ)),
      (rhCloses env1 cts m cnt).1 = (rhCloses env2 cts m cnt).1 ∧
      (rhCloses env1 cts m cnt).2.1 = (rhCloses env2 cts m cnt).2.1 := by
  intro cts
  induction cts with
  | nil =>
    intro m cnt
    exact ⟨rfl, rfl⟩
  | cons ct rest ih =>
    intro m cnt
    cases hml : mlookup m ct with
    | none =>
      rw [rhCloses_cons_skip env1 ct rest m cnt hml, rhCloses_cons_skip env2 ct rest m cnt hml]
      exact ih m cnt
    | some iv =>
      rw [rhCloses_cons_proc env1 ct rest m cnt iv hml,
        rhCloses_cons_proc env2 ct rest m cnt iv hml]
      dsimp only
      rw [hnow]
      exact ih (merase m ct) (record_day_trade_if_applicable cnt env2.now iv.2)

theorem rhCloses_live (env : RhTickEnv) :
    ∀ (cts : List ℕ) (m : List (ℕ × RhInfo × ℕ)) (cnt : List (DayKey × ℕ)),
      liveAfter (mdom m) (rhCloses env cts m cnt).2.2 = mdom (rhCloses env cts m cnt).1 := by
  intro cts
  induction cts with
  | nil =>
    intro m cnt
    rfl
  | cons ct rest ih =>
    intro m cnt
    cases hml : mlookup m ct with
    | none =>
      rw [rhCloses_cons_skip env ct rest m cnt hml]
      exact ih m cnt
    | some iv =>
      rw [rhCloses_cons_proc env ct rest m cnt iv hml]
      dsimp only
      rw [liveAfter_append, liveAfter_append, liveAfter_append]
      have h1 : liveAfter (mdom m) [Ev.closeAttempt ct] = mdom m := rfl
      have h2 : liveAfter (mdom m)
          (close_robinhood_position (env.closeEnv ct) cnt env.now ct iv.1).2 = mdom m :=
        liveAfter_of_no_cd _
          (fun u => (close_evs_no_cd (env.closeEnv ct) cnt env.now ct iv.1 u).1)
          (fun u => (close_evs_no_cd (env.closeEnv ct) cnt env.now ct iv.1 u).2) (mdom m)
      have h3 : liveAfter (mdom m) [Ev.delete ct] = (mdom m).erase ct := rfl
      rw [h1, h2, h3, ← mdom_merase]
      exact ih (merase m ct) (record_day_trade_if_applicable cnt env.now iv.2)

theorem rhCloses_no_create_mem (env : RhTickEnv) :
    ∀ (cts : List ℕ) (m : List (ℕ × RhInfo × ℕ)) (cnt : List (DayKey × ℕ)) (t : ℕ),
      Ev.create t ∉ (rhCloses env cts m cnt).2.2 := by
  intro cts m cnt t hmem
  have hz := (rhCloses_counts env cts m cnt t).2
  have hpos : 0 < createCount t (rhCloses env cts m cnt).2.2 := by
    simp only [createCount]
    rw [List.countP_pos_iff]
    exact ⟨Ev.create t, hmem, by simp⟩
  omega

/-! ### Open-loop lemmas (Robinhood copier) -/

theorem rhOpens_lookup_preserved (env : RhTickEnv) (ps : List MtPosition)
    (counters : List (DayKey × ℕ)) :
    ∀ (nts : List ℕ) (m : List (ℕ × RhInfo × ℕ)) (t : ℕ), t ∉ nts →
      mlookup (rhOpens env ps counters nts m).1 t = mlookup m t := by
  intro nts
  induction nts with
  | nil =>
    intro m t ht
    rfl
  | cons nt rest ih =>
    intro m t ht
    have htnt : t ≠ nt := fun he => ht (he ▸ List.mem_cons_self nt rest)
    have htr : t ∉ rest := fun hc => ht (List.mem_cons_of_mem nt hc)
    cases hf : findPos ps nt with
    | none =>
      rw [rhOpens_cons_skip env ps counters nt rest m hf]
      exact ih m t htr
    | some pos =>
      cases hc : (copy_mt5_trade_to_robinhood (env.openEnv nt) counters env.now pos).1 with
      | none =>
        rw [rhOpens_cons_fail env ps counters nt rest m pos hf hc]
        exact ih m t htr
      | some rh_info =>
        rw [rhOpens_cons_create env ps counters nt rest m pos rh_info hf hc]
        dsimp only
        rw [ih (mset m nt (rh_info, env.now)) t htr]
        exact mlookup_mset_ne m nt t (rh_info, env.now) htnt

theorem rhOpens_counts (env : RhTickEnv) (ps : List MtPosition)
    (counters : List (DayKey × ℕ)) :
    ∀ (nts : List ℕ) (m : List (ℕ × RhInfo × ℕ)) (t : ℕ),
      caCount t (rhOpens env ps counters nts m).2 = 0 ∧
      delCount t (rhOpens env ps counters nts m).2 = 0 ∧
      dInd t (rhOpens env ps counters nts m).1 ≤
        createCount t (rhOpens env ps counters nts m).2 + dInd t m := by
  intro nts
  induction nts with
  | nil =>
    intro m t
    refine ⟨rfl, rfl, ?_⟩
    rw [rhOpens_nil]
    simp [createCount]
  | cons nt rest ih =>
    intro m t
    cases hf : findPos ps nt with
    | none =>
      rw [rhOpens_cons_skip env ps counters nt rest m hf]
      exact ih m t
    | some pos =>
      have hcopy := copy_evs_counts (env.openEnv nt) counters env.now pos t
      cases hc : (copy_mt5_trade_to_robinhood (env.openEnv nt) counters env.now pos).1 with
      | none =>
        rw [rhOpens_cons_fail env ps counters nt rest m pos hf hc]
        dsimp only
        obtain ⟨ih1, ih2, ih3⟩ := ih m t
        refine ⟨?_, ?_, ?_⟩
        · rw [caCount_append, hcopy.2.2, ih1]
        · rw [delCount_append, hcopy.2.1, ih2]
        · rw [createCount_append, hcopy.1]
          omega
      | some rh_info =>
        rw [rhOpens_cons_create env ps counters nt rest m pos rh_info hf hc]
        dsimp only
        obtain ⟨ih1, ih2, ih3⟩ := ih (mset m nt (rh_info, env.now)) t
        refine ⟨?_, ?_, ?_⟩
        · rw [caCount_append, caCount_append, hcopy.2.2, ih1,
            (caCount_ca_zero nt t).2.2.2.2.1]
        · rw [delCount_append, delCount_append, hcopy.2.1, ih2,
            (caCount_ca_zero nt t).2.2.2.2.2]
        · rw [createCount_append, createCount_append, hcopy.1, createCount_create]
          by_cases hnt : nt = t
          · subst hnt
            have hm1 := dInd_mset_self m nt (rh_info, env.now)
            rw [if_pos rfl]
            omega
          · have hm1 := dInd_mset_ne m nt t (rh_info, env.now) (fun he => hnt he.symm)
            rw [if_neg hnt]
            omega

theorem rhOpens_fresh (env : RhTickEnv) (ps : List MtPosition)
    (counters : List (DayKey × ℕ)) :
    ∀ (nts : List ℕ) (m : List (ℕ × RhInfo × ℕ)), nts.Nodup →
      (∀ u ∈ nts, u ∉ mdom m) →
      createsFresh (mdom m) (rhOpens env ps counters nts m).2 ∧
      liveAfter (mdom m) (rhOpens env ps counters nts m).2 =
        mdom (rhOpens env ps counters nts m).1 ∧
      mdom (rhOpens env ps counters nts m).1 ⊆ mdom m ∪ nts.toFinset := by
  intro nts
  induction nts with
  | nil =>
    intro m hnd hfresh
    refine ⟨trivial, rfl, ?_⟩
    rw [rhOpens_nil]
    exact Finset.subset_union_left
  | cons nt rest ih =>
    intro m hnd hfresh
    have hnd2 := List.nodup_cons.mp hnd
    have hfr : ∀ u ∈ rest, u ∉ mdom m := fun u hu => hfresh u (List.mem_cons_of_mem nt hu)
    have hsub : (mdom m ∪ rest.toFinset : Finset ℕ) ⊆ mdom m ∪ (nt :: rest).toFinset := by
      rw [List.toFinset_cons]
      intro u hu
      rcases Finset.mem_union.mp hu with h1 | h2
      · exact Finset.mem_union_left _ h1
      · exact Finset.mem_union_right _ (Finset.mem_insert_of_mem h2)
    cases hf : findPos ps nt with
    | none =>
      rw [rhOpens_cons_skip env ps counters nt rest m hf]
      obtain ⟨h1, h2, h3⟩ := ih m hnd2.2 hfr
      exact ⟨h1, h2, h3.trans hsub⟩
    | some pos =>
      have hnocd := fun u => copy_evs_no_cd (env.openEnv nt) counters env.now pos u
      have hlive : liveAfter (mdom m)
          (copy_mt5_trade_to_robinhood (env.openEnv nt) counters env.now pos).2 = mdom m :=
        liveAfter_of_no_cd _ (fun u => (hnocd u).1) (fun u => (hnocd u).2) (mdom m)
      have hcf : createsFresh (mdom m)
          (copy_mt5_trade_to_robinhood (env.openEnv nt) counters env.now pos).2 :=
        createsFresh_of_no_create _ (fun u => (hnocd u).1) (mdom m)
      cases hc : (copy_mt5_trade_to_robinhood (env.openEnv nt) counters env.now pos).1 with
      | none =>
        rw [rhOpens_cons_fail env ps counters nt rest m pos hf hc]
        dsimp only
        obtain ⟨h1, h2, h3⟩ := ih m hnd2.2 hfr
        refine ⟨?_, ?_, h3.trans hsub⟩
        · refine createsFresh_append (mdom m) _ _ hcf ?_
          rw [hlive]
          exact h1
        · rw [liveAfter_append, hlive]
          exact h2
      | some rh_info =>
        rw [rhOpens_cons_create env ps counters nt rest m pos rh_info hf hc]
        dsimp only
        have hmset : mdom (mset m nt (rh_info, env.now)) = insert nt (mdom m) :=
          mdom_mset m nt (rh_info, env.now)
        have hfr2 : ∀ u ∈ rest, u ∉ mdom (mset m nt (rh_info, env.now)) := by
          intro u hu
          rw [hmset]
          intro hc2
          rcases Finset.mem_insert.mp hc2 with h1 | h2
          · exact hnd2.1 (h1 ▸ hu)
          · exact hfr u hu h2
        obtain ⟨h1, h2, h3⟩ := ih (mset m nt (rh_info, env.now)) hnd2.2 hfr2
        have hlive2 : liveAfter (mdom m)
            ((copy_mt5_trade_to_robinhood (env.openEnv nt) counters env.now pos).2 ++
              [Ev.create nt]) = mdom (mset m nt (rh_info, env.now)) := by
          rw [liveAfter_append, hlive, hmset]
          rfl
        refine ⟨?_, ?_, ?_⟩
        · apply createsFresh_append (mdom m)
            ((copy_mt5_trade_to_robinhood (env.openEnv nt) counters env.now pos).2 ++
              [Ev.create nt])
          · apply createsFresh_append (mdom m) _ _ hcf
            rw [hlive]
            refine ⟨?_, trivial⟩
            intro u heq
            have : u = nt := by
              have := Ev.create.injEq nt u
              simp at heq
              exact heq.symm
            subst this
            exact hfresh u (List.mem_cons_self u rest)
          · rw [hlive2]
            exact h1
        · rw [liveAfter_append, hlive2]
          exact h2
        · intro u hu
          have := h3 hu
          rcases Finset.mem_union.mp this with h4 | h5
          · rw [hmset] at h4
            rcases Finset.mem_insert.mp h4 with h6 | h7
            · rw [List.toFinset_cons]
              exact Finset.mem_union_right _ (h6 ▸ Finset.mem_insert_self nt rest.toFinset)
            · exact Finset.mem_union_left _ h7
          · exact hsub (Finset.mem_union_right _ h5)

/-! ### Tick-level lemmas (Robinhood copier) -/

theorem rhTick_err (env : RhTickEnv) (s : RhState) (e : Unit)
    (h : env.fetch = Except.error e) : rhTick env s = (s, []) := by
  unfold rhTick
  rw [h]

theorem rhTick_ok_eq (env : RhTickEnv) (s : RhState) (r : Option (List MtPosition))
    (h : env.fetch = Except.ok r) :
    rhTick env s =
      ({ old_tickets := currentTicketsOf (r.getD []),
         ticket_to_rh :=
           (rhCloses env
             (closedTicketsOf s.old_tickets (currentTicketsOf (r.getD [])))
             (rhOpens env (r.getD []) s.day_trades_count
               (newTicketsOf s.old_tickets (currentTicketsOf (r.getD [])))
               s.ticket_to_rh).1
             s.day_trades_count).1,
         day_trades_count :=
           (rhCloses env
             (closedTicketsOf s.old_tickets (currentTicketsOf (r.getD [])))
             (rhOpens env (r.getD []) s.day_trades_count
               (newTicketsOf s.old_tickets (currentTicketsOf (r.getD [])))
               s.ticket_to_rh).1
             s.day_trades_count).2.1 },
       (rhOpens env (r.getD []) s.day_trades_count
         (newTicketsOf s.old_tickets (currentTicketsOf (r.getD [])))
         s.ticket_to_rh).2 ++
       (rhCloses env
         (closedTicketsOf s.old_tickets (currentTicketsOf (r.getD [])))
         (rhOpens env (r.getD []) s.day_trades_count
           (newTicketsOf s.old_tickets (currentTicketsOf (r.getD [])))
           s.ticket_to_rh).1
         s.day_trades_count).2.2) := by
  unfold rhTick
  rw [h]

theorem newTickets_nodup (previous : List ℕ) (ps : List MtPosition) :
    (newTicketsOf previous (currentTicketsOf ps)).Nodup :=
  List.Nodup.filter _ (List.nodup_dedup _)

theorem newTickets_not_in_old (previous current : List ℕ) (u : ℕ)
    (h : u ∈ newTicketsOf previous current) : u ∉ previous := by
  have := List.of_mem_filter h
  simpa using this

theorem newTickets_in_current (previous current : List ℕ) (u : ℕ)
    (h : u ∈ newTicketsOf previous current) : u ∈ current :=
  List.mem_of_mem_filter h

theorem closedTickets_spec (previous current : List ℕ) (u : ℕ) :
    u ∈ closedTicketsOf previous current ↔ u ∈ previous ∧ u ∉ current := by
  simp [closedTicketsOf]

theorem rhTick_fresh (env : RhTickEnv) (s : RhState)
    (hinv : mdom s.ticket_to_rh ⊆ s.old_tickets.toFinset) :
    createsFresh (mdom s.ticket_to_rh) (rhTick env s).2 ∧
    liveAfter (mdom s.ticket_to_rh) (rhTick env s).2 =
      mdom (rhTick env s).1.ticket_to_rh ∧
    mdom (rhTick env s).1.ticket_to_rh ⊆ (rhTick env s).1.old_tickets.toFinset := by
  cases hf : env.fetch with
  | error e =>
    rw [rhTick_err env s e hf]
    exact ⟨trivial, rfl, hinv⟩
  | ok r =>
    rw [rhTick_ok_eq env s r hf]
    dsimp only
    set ps := r.getD [] with hps
    set cur := currentTicketsOf ps with hcur
    set nts := newTicketsOf s.old_tickets cur with hnts
    set cts := closedTicketsOf s.old_tickets cur with hcts
    have hnd : nts.Nodup := newTickets_nodup s.old_tickets ps
    have hfresh : ∀ u ∈ nts, u ∉ mdom s.ticket_to_rh := by
      intro u hu hmem
      have h1 := newTickets_not_in_old s.old_tickets cur u hu
      exact h1 (List.mem_toFinset.mp (hinv hmem))
    obtain ⟨ho1, ho2, ho3⟩ :=
      rhOpens_fresh env ps s.day_trades_count nts s.ticket_to_rh hnd hfresh
    set om := (rhOpens env ps s.day_trades_count nts s.ticket_to_rh).1 with hom
    refine ⟨?_, ?_, ?_⟩
    · apply createsFresh_append _ _ _ ho1
      exact createsFresh_of_no_create _
        (fun u => rhCloses_no_create_mem env cts om s.day_trades_count u) _
    · rw [liveAfter_append, ho2]
      exact rhCloses_live env cts om s.day_trades_count
    · intro u hu
      rw [List.mem_toFinset]
      have humem : mlookup (rhCloses env cts om s.day_trades_count).1 u ≠ none :=
        (mem_mdom _ u).mp hu
      have huo : u ∈ mdom om := by
        rw [mem_mdom]
        intro hnone
        exact humem (rhCloses_map_shrink env cts om s.day_trades_count u hnone)
      by_cases hucur : u ∈ cur
      · exact hucur
      · exfalso
        have h3 := ho3 huo
        rcases Finset.mem_union.mp h3 with h4 | h5
        · have hold : u ∈ s.old_tickets := List.mem_toFinset.mp (hinv h4)
          have hcls : u ∈ cts := (closedTickets_spec s.old_tickets cur u).mpr ⟨hold, hucur⟩
          obtain ⟨iv, hiv⟩ : ∃ iv, mlookup om u = some iv := by
            cases hl : mlookup om u with
            | none => exact absurd hl ((mem_mdom om u).mp huo)
            | some iv => exact ⟨iv, rfl⟩
          have := (rhCloses_processed env cts om s.day_trades_count u iv hcls hiv).2.2
          exact humem this
        · exact hucur (newTickets_in_current s.old_tickets cur u (List.mem_toFinset.mp h5))

theorem rhTick_counts (env : RhTickEnv) (s : RhState) (t : ℕ) :
    caCount t (rhTick env s).2 = delCount t (rhTick env s).2 ∧
    caCount t (rhTick env s).2 + dInd t (rhTick env s).1.ticket_to_rh ≤
      createCount t (rhTick env s).2 + dInd t s.ticket_to_rh := by
  cases hf : env.fetch with
  | error e =>
    rw [rhTick_err env s e hf]
    exact ⟨rfl, by simp [caCount, createCount]⟩
  | ok r =>
    rw [rhTick_ok_eq env s r hf]
    dsimp only
    set ps := r.getD [] with hps
    set cur := currentTicketsOf ps with hcur
    set nts := newTicketsOf s.old_tickets cur with hnts
    set cts := closedTicketsOf s.old_tickets cur with hcts
    obtain ⟨ho1, ho2, ho3⟩ := rhOpens_counts env ps s.day_trades_count nts s.ticket_to_rh t
    set om := (rhOpens env ps s.day_trades_count nts s.ticket_to_rh).1 with hom
    obtain ⟨hc1, hc2⟩ := rhCloses_counts env cts om s.day_trades_count t
    have hcb := rhCloses_ca_bound env cts om s.day_trades_count t
    have hdel0 : delCount t (rhOpens env ps s.day_trades_count nts s.ticket_to_rh).2 = 0 :=
      ho2
    constructor
    · rw [caCount_append, delCount_append, ho1, hdel0, hc1]
    · rw [caCount_append, createCount_append, ho1, hc2]
      omega

/-! ### Run-level lemmas (Robinhood copier) -/

theorem rhRun_cons (e : RhTickEnv) (es : List RhTickEnv) (s : RhState) :
    rhRun (e :: es) s =
      ((rhRun es (rhTick e s).1).1, (rhTick e s).2 ++ (rhRun es (rhTick e s).1).2) := rfl

theorem rhRun_fresh : ∀ (envs : List RhTickEnv) (s : RhState),
    mdom s.ticket_to_rh ⊆ s.old_tickets.toFinset →
    createsFresh (mdom s.ticket_to_rh) (rhRun envs s).2 := by
  intro envs
  induction envs with
  | nil =>
    intro s h
    trivial
  | cons e es ih =>
    intro s h
    rw [rhRun_cons]
    dsimp only
    obtain ⟨h1, h2, h3⟩ := rhTick_fresh e s h
    apply createsFresh_append _ _ _ h1
    rw [h2]
    exact ih (rhTick e s).1 h3

theorem rhRun_counts : ∀ (envs : List RhTickEnv) (s : RhState) (t : ℕ),
    (caCount t (rhRun envs s).2 = delCount t (rhRun envs s).2) ∧
    caCount t (rhRun envs s).2 + dInd t (rhRun envs s).1.ticket_to_rh ≤
      createCount t (rhRun envs s).2 + dInd t s.ticket_to_rh := by
  intro envs
  induction envs with
  | nil =>
    intro s t
    exact ⟨rfl, le_refl _⟩
  | cons e es ih =>
    intro s t
    rw [rhRun_cons]
    dsimp only
    obtain ⟨h1, h2⟩ := rhTick_counts e s t
    obtain ⟨ih1, ih2⟩ := ih (rhTick e s).1 t
    constructor
    · rw [caCount_append, delCount_append, h1, ih1]
    · rw [caCount_append, createCount_append]
      omega

/-! ### Loop and tick lemmas (TradeLocker copier) -/

theorem tlCloses_map_none_mono (env : TlEnv) :
    ∀ (cts : List ℕ) (m : List (ℕ × ℤ)) (t : ℕ),
      mlookup m t = none → mlookup (tlCloses env cts m).1 t = none := by
  intro cts
  induction cts with
  | nil =>
    intro m t h
    exact h
  | cons ct rest ih =>
    intro m t h
    cases hml : mlookup m ct with
    | none =>
      rw [tlCloses_cons_skip env ct rest m hml]
      exact ih m t h
    | some oid =>
      cases hs : env.closeOrder oid with
      | true =>
        rw [tlCloses_cons_success env ct rest m oid hml hs]
        dsimp only
        apply ih
        by_cases hct : t = ct
        · subst hct
          exact mlookup_merase_self m t
        · rw [mlookup_merase_ne m ct t hct]
          exact h
      | false =>
        rw [tlCloses_cons_fail env ct rest m oid hml hs]
        dsimp only
        exact ih m t h

theorem tlCloses_fail_preserved (env : TlEnv) :
    ∀ (cts : List ℕ) (m : List (ℕ × ℤ)) (t : ℕ) (oid : ℤ),
      mlookup m t = some oid → env.closeOrder oid = false →
      mlookup (tlCloses env cts m).1 t = some oid := by
  intro cts
  induction cts with
  | nil =>
    intro m t oid h hcl
    exact h
  | cons ct rest ih =>
    intro m t oid h hcl
    by_cases hct : ct = t
    · subst hct
      rw [tlCloses_cons_fail env ct rest m oid (by rw [h]) hcl]
      dsimp only
      exact ih m ct oid h hcl
    · cases hml : mlookup m ct with
      | none =>
        rw [tlCloses_cons_skip env ct rest m hml]
        exact ih m t oid h hcl
      | some oid2 =>
        cases hs : env.closeOrder oid2 with
        | true =>
          rw [tlCloses_cons_success env ct rest m oid2 hml hs]
          dsimp only
          apply ih
          · rw [mlookup_merase_ne m ct t (fun he => hct he.symm)]
            exact h
          · exact hcl
        | false =>
          rw [tlCloses_cons_fail env ct rest m oid2 hml hs]
          dsimp only
          exact ih m t oid h hcl

theorem tlCloses_processed (env : TlEnv) :
    ∀ (cts : List ℕ) (m : List (ℕ × ℤ)) (t : ℕ) (oid : ℤ),
      t ∈ cts → mlookup m t = some oid →
      Ev.closeAttempt t ∈ (tlCloses env cts m).2 ∧
      (env.closeOrder oid = true → mlookup (tlCloses env cts m).1 t = none) ∧
      (env.closeOrder oid = false → mlookup (tlCloses env cts m).1 t = some oid) := by
  intro cts
  induction cts with
  | nil =>
    intro m t oid hmem
    exact absurd hmem (List.not_mem_nil t)
  | cons ct rest ih =>
    intro m t oid hmem hml
    by_cases hct : t = ct
    · subst hct
      cases hs : env.closeOrder oid with
      | true =>
        rw [tlCloses_cons_success env t rest m oid hml hs]
        dsimp only
        refine ⟨List.mem_cons_self _ _, fun _ => ?_, fun hcl => ?_⟩
        · exact tlCloses_map_none_mono env rest (merase m t) t (mlookup_merase_self m t)
        · exact absurd hcl (by simp)
      | false =>
        rw [tlCloses_cons_fail env t rest m oid hml hs]
        dsimp only
        refine ⟨List.mem_cons_self _ _, fun hcl => ?_, fun _ => ?_⟩
        · exact absurd hcl (by simp)
        · exact tlCloses_fail_preserved env rest m t oid hml hs
    · have hrest : t ∈ rest := by
        cases List.mem_cons.mp hmem with
        | inl h => exact absurd h hct
        | inr h => exact h
      cases hml2 : mlookup m ct with
      | none =>
        rw [tlCloses_cons_skip env ct rest m hml2]
        exact ih m t oid hrest hml
      | some oid2 =>
        cases hs : env.closeOrder oid2 with
        | true =>
          rw [tlCloses_cons_success env ct rest m oid2 hml2 hs]
          dsimp only
          have hml3 : mlookup (merase m ct) t = some oid := by
            rw [mlookup_merase_ne m ct t hct]
            exact hml
          obtain ⟨h1, h2, h3⟩ := ih (merase m ct) t oid hrest hml3
          exact ⟨List.mem_cons_of_mem _ (List.mem_cons_of_mem _ h1), h2, h3⟩
        | false =>
          rw [tlCloses_cons_fail env ct rest m oid2 hml2 hs]
          dsimp only
          obtain ⟨h1, h2, h3⟩ := ih m t oid hrest hml
          exact ⟨List.mem_cons_of_mem _ h1, h2, h3⟩

theorem tlCloses_no_create (env : TlEnv) :
    ∀ (cts : List ℕ) (m : List (ℕ × ℤ)) (t : ℕ),
      Ev.create t ∉ (tlCloses env cts m).2 := by
  intro cts
  induction cts with
  | nil =>
    intro m t hmem
    exact absurd hmem (List.not_mem_nil _)
  | cons ct rest ih =>
    intro m t hmem
    cases hml : mlookup m ct with
    | none =>
      rw [tlCloses_cons_skip env ct rest m hml] at hmem
      exact ih m t hmem
    | some oid =>
      cases hs : env.closeOrder oid with
      | true =>
        rw [tlCloses_cons_success env ct rest m oid hml hs] at hmem
        dsimp only at hmem
        rcases List.mem_cons.mp hmem with h1 | h2
        · exact Ev.noConfusion h1
        · rcases List.mem_cons.mp h2 with h3 | h4
          · exact Ev.noConfusion h3
          · exact ih (merase m ct) t h4
      | false =>
        rw [tlCloses_cons_fail env ct rest m oid hml hs] at hmem
        dsimp only at hmem
        rcases List.mem_cons.mp hmem with h1 | h2
        · exact Ev.noConfusion h1
        · exact ih m t h2

theorem tlOpens_create_mem (env : TlEnv) (ps : List TlPosition) :
    ∀ (nts : List ℕ) (m : List (ℕ × ℤ)) (t : ℕ),
      Ev.create t ∈ (tlOpens env ps nts m).2 → t ∈ nts := by
  intro nts
  induction nts with
  | nil =>
    intro m t hmem
    exact absurd hmem (List.not_mem_nil _)
  | cons nt rest ih =>
    intro m t hmem
    cases hf : findTlPos ps nt with
    | none =>
      rw [tlOpens_cons_skip env ps nt rest m hf] at hmem
      exact List.mem_cons_of_mem _ (ih m t hmem)
    | some pos =>
      by_cases hm : pos.magic ≠ MAGIC_NUMBER
      · rw [tlOpens_cons_magic env ps nt rest m pos hf hm] at hmem
        exact List.mem_cons_of_mem _ (ih m t hmem)
      · cases ho : env.placeOrder nt with
        | none =>
          rw [tlOpens_cons_fail env ps nt rest m pos hf hm ho] at hmem
          exact List.mem_cons_of_mem _ (ih m t hmem)
        | some oid =>
          rw [tlOpens_cons_create env ps nt rest m pos oid hf hm ho] at hmem
          dsimp only at hmem
          rcases List.mem_cons.mp hmem with h1 | h2
          · rw [Ev.create.injEq] at h1
            exact h1 ▸ List.mem_cons_self nt rest
          · exact List.mem_cons_of_mem _ (ih (mset m nt oid) t h2)

theorem tlOpens_create_count (env : TlEnv) (ps : List TlPosition) :
    ∀ (nts : List ℕ) (m : List (ℕ × ℤ)) (t : ℕ), nts.Nodup →
      createCount t (tlOpens env ps nts m).2 ≤ if t ∈ nts then 1 else 0 := by
  intro nts
  induction nts with
  | nil =>
    intro m t hnd
    simp [tlOpens_nil, createCount]
  | cons nt rest ih =>
    intro m t hnd
    have hnd2 := List.nodup_cons.mp hnd
    cases hf : findTlPos ps nt with
    | none =>
      rw [tlOpens_cons_skip env ps nt rest m hf]
      refine le_trans (ih m t hnd2.2) ?_
      by_cases hmem : t ∈ rest
      · rw [if_pos hmem, if_pos (List.mem_cons_of_mem _ hmem)]
      · rw [if_neg hmem]
        exact Nat.zero_le _
    | some pos =>
      by_cases hm : pos.magic ≠ MAGIC_NUMBER
      · rw [tlOpens_cons_magic env ps nt rest m pos hf hm]
        refine le_trans (ih m t hnd2.2) ?_
        by_cases hmem : t ∈ rest
        · rw [if_pos hmem, if_pos (List.mem_cons_of_mem _ hmem)]
        · rw [if_neg hmem]
          exact Nat.zero_le _
      · cases ho : env.placeOrder nt with
        | none =>
          rw [tlOpens_cons_fail env ps nt rest m pos hf hm ho]
          refine le_trans (ih m t hnd2.2) ?_
          by_cases hmem : t ∈ rest
          · rw [if_pos hmem, if_pos (List.mem_cons_of_mem _ hmem)]
          · rw [if_neg hmem]
            exact Nat.zero_le _
        | some oid =>
          rw [tlOpens_cons_create env ps nt rest m pos oid hf hm ho]
          dsimp only
          have hcc : createCount t (Ev.create nt :: (tlOpens env ps rest (mset m nt oid)).2) =
              (if nt = t then 1 else 0) +
                createCount t (tlOpens env ps rest (mset m nt oid)).2 := by
            have : (Ev.create nt :: (tlOpens env ps rest (mset m nt oid)).2) =
                [Ev.create nt] ++ (tlOpens env ps rest (mset m nt oid)).2 := rfl
            rw [this, createCount_append, createCount_create]
          rw [hcc]
          by_cases hnt : nt = t
          · subst hnt
            rw [if_pos rfl, if_pos (List.mem_cons_self nt rest)]
            have h0 : createCount nt (tlOpens env ps rest (mset m nt oid)).2 = 0 := by
              apply createCount_eq_zero
              intro hmem
              exact hnd2.1 (tlOpens_create_mem env ps rest (mset m nt oid) nt hmem)
            omega
          · rw [if_neg hnt]
            have hle := ih (mset m nt oid) t hnd2.2
            by_cases hmem : t ∈ rest
            · rw [if_pos hmem] at hle
              rw [if_pos (List.mem_cons_of_mem _ hmem)]
              omega
            · rw [if_neg hmem] at hle
              have h0 : (0 : ℕ) ≤ if t ∈ nt :: rest then 1 else 0 := Nat.zero_le _
              omega

theorem tlTick_err (env : TlEnv) (s : TlState) (e : Unit)
    (h : env.fetch = Except.error e) : copy_trades_tick env s = (s, []) := by
  unfold copy_trades_tick
  rw [h]

theorem tlTick_ok_eq (env : TlEnv) (s : TlState) (r : Option (List TlPosition))
    (h : env.fetch = Except.ok r) :
    copy_trades_tick env s =
      ({ old_tickets := currentTlTicketsOf (r.getD []),
         ticket_to_tradelocker :=
           (tlCloses env
             (closedTicketsOf s.old_tickets (currentTlTicketsOf (r.getD [])))
             (tlOpens env (r.getD [])
               (newTicketsOf s.old_tickets (currentTlTicketsOf (r.getD [])))
               s.ticket_to_tradelocker).1).1 },
       (tlOpens env (r.getD [])
         (newTicketsOf s.old_tickets (currentTlTicketsOf (r.getD [])))
         s.ticket_to_tradelocker).2 ++
       (tlCloses env
         (closedTicketsOf s.old_tickets (currentTlTicketsOf (r.getD [])))
         (tlOpens env (r.getD [])
           (newTicketsOf s.old_tickets (currentTlTicketsOf (r.getD [])))
           s.ticket_to_tradelocker).1).2) := by
  unfold copy_trades_tick
  rw [h]

theorem tlTick_create_mem (env : TlEnv) (s : TlState) (r : Option (List TlPosition))
    (hf : env.fetch = Except.ok r) (t : ℕ)
    (h : Ev.create t ∈ (copy_trades_tick env s).2) :
    t ∈ currentTlTicketsOf (r.getD []) ∧ t ∉ s.old_tickets := by
  rw [tlTick_ok_eq env s r hf] at h
  dsimp only at h
  rcases List.mem_append.mp h with h1 | h2
  · have := tlOpens_create_mem env (r.getD []) _ s.ticket_to_tradelocker t h1
    exact ⟨newTickets_in_current _ _ t this, newTickets_not_in_old _ _ t this⟩
  · exact absurd h2 (tlCloses_no_create env _ _ t)

theorem tlTick_create_count (env : TlEnv) (s : TlState) (t : ℕ) :
    createCount t (copy_trades_tick env s).2 ≤ 1 := by
  cases hf : env.fetch with
  | error e =>
    rw [tlTick_err env s e hf]
    simp [createCount]
  | ok r =>
    rw [tlTick_ok_eq env s r hf]
    dsimp only
    rw [createCount_append]
    have h1 : (newTicketsOf s.old_tickets (currentTlTicketsOf (r.getD []))).Nodup := by
      apply List.Nodup.filter
      exact List.nodup_dedup _
    have h2 := tlOpens_create_count env (r.getD [])
      (newTicketsOf s.old_tickets (currentTlTicketsOf (r.getD [])))
      s.ticket_to_tradelocker t h1
    have h3 : createCount t
        (tlCloses env (closedTicketsOf s.old_tickets (currentTlTicketsOf (r.getD [])))
          (tlOpens env (r.getD [])
            (newTicketsOf s.old_tickets (currentTlTicketsOf (r.getD [])))
            s.ticket_to_tradelocker).1).2 = 0 :=
      createCount_eq_zero t _ (tlCloses_no_create env _ _ t)
    by_cases hmem : t ∈ newTicketsOf s.old_tickets (currentTlTicketsOf (r.getD []))
    · rw [if_pos hmem] at h2
      omega
    · rw [if_neg hmem] at h2
      omega

theorem tlSnaps_cons_err (e : TlEnv) (es : List TlEnv) (u : Unit)
    (h : e.fetch = Except.error u) : tlSnaps (e :: es) = tlSnaps es := by
  conv_lhs => rw [tlSnaps]
  rw [h]

theorem tlSnaps_cons_ok (e : TlEnv) (es : List TlEnv) (r : Option (List TlPosition))
    (h : e.fetch = Except.ok r) :
    tlSnaps (e :: es) = (currentTlTicketsOf (r.getD [])).toFinset :: tlSnaps es := by
  conv_lhs => rw [tlSnaps]
  rw [h]

theorem tlRun_cons (e : TlEnv) (es : List TlEnv) (s : TlState) :
    tlRun (e :: es) s =
      ((tlRun es (copy_trades_tick e s).1).1,
        (copy_trades_tick e s).2 ++ (tlRun es (copy_trades_tick e s).1).2) := rfl

theorem noRevisit_cons (gone prev c : Finset ℕ) (rest : List (Finset ℕ)) :
    noRevisit gone prev (c :: rest) =
      (decide (gone ∩ c = ∅) && noRevisit (gone ∪ (prev \ c)) c rest) := rfl

theorem tlRun_create_counts : ∀ (envs : List TlEnv) (s : TlState) (gone : Finset ℕ),
    noRevisit gone s.old_tickets.toFinset (tlSnaps envs) = true →
    (∀ t, t ∈ s.old_tickets ∨ t ∈ gone → createCount t (tlRun envs s).2 = 0) ∧
    (∀ t, createCount t (tlRun envs s).2 ≤ 1) := by
  intro envs
  induction envs with
  | nil =>
    intro s gone h
    exact ⟨fun t _ => rfl, fun t => by simp [tlRun, createCount]⟩
  | cons e es ih =>
    intro s gone h
    cases hf : e.fetch with
    | error u =>
      rw [tlSnaps_cons_err e es u hf] at h
      rw [tlRun_cons, tlTick_err e s u hf]
      dsimp only
      rw [List.nil_append]
      exact ih s gone h
    | ok r =>
      rw [tlSnaps_cons_ok e es r hf, noRevisit_cons, Bool.and_eq_true] at h
      have hdisj : gone ∩ (currentTlTicketsOf (r.getD [])).toFinset = ∅ :=
        of_decide_eq_true h.1
      have hrest := h.2
      rw [tlRun_cons]
      dsimp only
      have hold : (copy_trades_tick e s).1.old_tickets = currentTlTicketsOf (r.getD []) := by
        rw [tlTick_ok_eq e s r hf]
      have hih := ih (copy_trades_tick e s).1
        (gone ∪ (s.old_tickets.toFinset \ (currentTlTicketsOf (r.getD [])).toFinset))
        (by rw [hold]; exact hrest)
      have htickzero : ∀ t, t ∈ s.old_tickets ∨ t ∈ gone →
          createCount t (copy_trades_tick e s).2 = 0 := by
        intro t ht
        apply createCount_eq_zero
        intro hmem
        obtain ⟨hcur, hnotold⟩ := tlTick_create_mem e s r hf t hmem
        cases ht with
        | inl h1 => exact hnotold h1
        | inr h1 =>
          have : t ∈ gone ∩ (currentTlTicketsOf (r.getD [])).toFinset :=
            Finset.mem_inter.mpr ⟨h1, List.mem_toFinset.mpr hcur⟩
          rw [hdisj] at this
          exact absurd this (Finset.not_mem_empty t)
      constructor
      · intro t ht
        rw [createCount_append, htickzero t ht]
        have hnext : t ∈ (copy_trades_tick e s).1.old_tickets ∨
            t ∈ gone ∪ (s.old_tickets.toFinset \ (currentTlTicketsOf (r.getD [])).toFinset) := by
          cases ht with
          | inl h1 =>
            by_cases hcur : t ∈ currentTlTicketsOf (r.getD [])
            · exact Or.inl (by rw [hold]; exact hcur)
            · refine Or.inr (Finset.mem_union_right _ ?_)
              exact Finset.mem_sdiff.mpr ⟨List.mem_toFinset.mpr h1,
                fun hc => hcur (List.mem_toFinset.mp hc)⟩
          | inr h1 => exact Or.inr (Finset.mem_union_left _ h1)
        rw [hih.1 t hnext]
      · intro t
        rw [createCount_append]
        by_cases hzero : createCount t (copy_trades_tick e s).2 = 0
        · rw [hzero]
          have := hih.2 t
          omega
        · have hmem := create_mem_of_count_pos t _ hzero
          obtain ⟨hcur, hnotold⟩ := tlTick_create_mem e s r hf t hmem
          have hrest0 : createCount t (tlRun es (copy_trades_tick e s).1).2 = 0 :=
            hih.1 t (Or.inl (by rw [hold]; exact hcur))
          have hle := tlTick_create_count e s t
          omega

theorem caCount_eq_zero (t : ℕ) (tr : List Ev) (h : Ev.closeAttempt t ∉ tr) :
    caCount t tr = 0 := by
  simp only [caCount]
  rw [List.countP_eq_zero]
  intro e he
  simp only [decide_eq_true_eq]
  intro heq
  exact h (heq ▸ he)

theorem ca_mem_of_count_pos (t : ℕ) (tr : List Ev) (h : caCount t tr ≠ 0) :
    Ev.closeAttempt t ∈ tr := by
  by_contra hmem
  exact h (caCount_eq_zero t tr hmem)

theorem tlOpens_no_ca (env : TlEnv) (ps : List TlPosition) :
    ∀ (nts : List ℕ) (m : List (ℕ × ℤ)) (t : ℕ),
      Ev.closeAttempt t ∉ (tlOpens env ps nts m).2 := by
  intro nts
  induction nts with
  | nil =>
    intro m t hmem
    exact absurd hmem (List.not_mem_nil _)
  | cons nt rest ih =>
    intro m t hmem
    cases hf : findTlPos ps nt with
    | none =>
      rw [tlOpens_cons_skip env ps nt rest m hf] at hmem
      exact ih m t hmem
    | some pos =>
      by_cases hm : pos.magic ≠ MAGIC_NUMBER
      · rw [tlOpens_cons_magic env ps nt rest m pos hf hm] at hmem
        exact ih m t hmem
      · cases ho : env.placeOrder nt with
        | none =>
          rw [tlOpens_cons_fail env ps nt rest m pos hf hm ho] at hmem
          exact ih m t hmem
        | some oid =>
          rw [tlOpens_cons_create env ps nt rest m pos oid hf hm ho] at hmem
          dsimp only at hmem
          rcases List.mem_cons.mp hmem with h1 | h2
          · exact Ev.noConfusion h1
          · exact ih (mset m nt oid) t h2

theorem tlCloses_ca_mem (env : TlEnv) :
    ∀ (cts : List ℕ) (m : List (ℕ × ℤ)) (t : ℕ),
      Ev.closeAttempt t ∈ (tlCloses env cts m).2 → t ∈ cts := by
  intro cts
  induction cts with
  | nil =>
    intro m t hmem
    exact absurd hmem (List.not_mem_nil _)
  | cons ct rest ih =>
    intro m t hmem
    cases hml : mlookup m ct with
    | none =>
      rw [tlCloses_cons_skip env ct rest m hml] at hmem
      exact List.mem_cons_of_mem _ (ih m t hmem)
    | some oid =>
      cases hs : env.closeOrder oid with
      | true =>
        rw [tlCloses_cons_success env ct rest m oid hml hs] at hmem
        dsimp only at hmem
        rcases List.mem_cons.mp hmem with h1 | h2
        · rw [Ev.closeAttempt.injEq] at h1
          exact h1 ▸ List.mem_cons_self ct rest
        · rcases List.mem_cons.mp h2 with h3 | h4
          · exact Ev.noConfusion h3
          · exact List.mem_cons_of_mem _ (ih (merase m ct) t h4)
      | false =>
        rw [tlCloses_cons_fail env ct rest m oid hml hs] at hmem
        dsimp only at hmem
        rcases List.mem_cons.mp hmem with h1 | h2
        · rw [Ev.closeAttempt.injEq] at h1
          exact h1 ▸ List.mem_cons_self ct rest
        · exact List.mem_cons_of_mem _ (ih m t h2)

theorem tlCloses_ca_count (env : TlEnv) :
    ∀ (cts : List ℕ) (m : List (ℕ × ℤ)) (t : ℕ), cts.Nodup →
      caCount t (tlCloses env cts m).2 ≤ if t ∈ cts then 1 else 0 := by
  intro cts
  induction cts with
  | nil =>
    intro m t hnd
    simp [tlCloses_nil, caCount]
  | cons ct rest ih =>
    intro m t hnd
    have hnd2 := List.nodup_cons.mp hnd
    cases hml : mlookup m ct with
    | none =>
      rw [tlCloses_cons_skip env ct rest m hml]
      refine le_trans (ih m t hnd2.2) ?_
      by_cases hmem : t ∈ rest
      · rw [if_pos hmem, if_pos (List.mem_cons_of_mem _ hmem)]
      · rw [if_neg hmem]
        exact Nat.zero_le _
    | some oid =>
      cases hs : env.closeOrder oid with
      | true =>
        rw [tlCloses_cons_success env ct rest m oid hml hs]
        dsimp only
        have hcc : caCount t (Ev.closeAttempt ct :: Ev.delete ct ::
            (tlCloses env rest (merase m ct)).2) =
            (if ct = t then 1 else 0) + caCount t (tlCloses env rest (merase m ct)).2 := by
          have heq : (Ev.closeAttempt ct :: Ev.delete ct ::
              (tlCloses env rest (merase m ct)).2) =
              [Ev.closeAttempt ct] ++ [Ev.delete ct] ++
                (tlCloses env rest (merase m ct)).2 := rfl
          rw [heq, caCount_append, caCount_append, caCount_ca, (caCount_ca_zero ct t).1]
          omega
        rw [hcc]
        by_cases hct : ct = t
        · subst hct
          rw [if_pos rfl, if_pos (List.mem_cons_self ct rest)]
          have h0 : caCount ct (tlCloses env rest (merase m ct)).2 = 0 := by
            apply caCount_eq_zero
            intro hmem
            exact hnd2.1 (tlCloses_ca_mem env rest (merase m ct) ct hmem)
          omega
        · rw [if_neg hct]
          have hle := ih (merase m ct) t hnd2.2
          by_cases hmem : t ∈ rest
          · rw [if_pos hmem] at hle
            rw [if_pos (List.mem_cons_of_mem _ hmem)]
            omega
          · rw [if_neg hmem] at hle
            have h0 : (0 : ℕ) ≤ if t ∈ ct :: rest then 1 else 0 := Nat.zero_le _
            omega
      | false =>
        rw [tlCloses_cons_fail env ct rest m oid hml hs]
        dsimp only
        have hcc : caCount t (Ev.closeAttempt ct :: (tlCloses env rest m).2) =
            (if ct = t then 1 else 0) + caCount t (tlCloses env rest m).2 := by
          have heq : (Ev.closeAttempt ct :: (tlCloses env rest m).2) =
              [Ev.closeAttempt ct] ++ (tlCloses env rest m).2 := rfl
          rw [heq, caCount_append, caCount_ca]
        rw [hcc]
        by_cases hct : ct = t
        · subst hct
          rw [if_pos rfl, if_pos (List.mem_cons_self ct rest)]
          have h0 : caCount ct (tlCloses env rest m).2 = 0 := by
            apply caCount_eq_zero
            intro hmem
            exact hnd2.1 (tlCloses_ca_mem env rest m ct hmem)
          omega
        · rw [if_neg hct]
          have hle := ih m t hnd2.2
          by_cases hmem : t ∈ rest
          · rw [if_pos hmem] at hle
            rw [if_pos (List.mem_cons_of_mem _ hmem)]
            omega
          · rw [if_neg hmem] at hle
            have h0 : (0 : ℕ) ≤ if t ∈ ct :: rest then 1 else 0 := Nat.zero_le _
            omega

theorem tlTick_ca_mem (env : TlEnv) (s : TlState) (r : Option (List TlPosition))
    (hf : env.fetch = Except.ok r) (t : ℕ)
    (h : Ev.closeAttempt t ∈ (copy_trades_tick env s).2) :
    t ∈ s.old_tickets ∧ t ∉ currentTlTicketsOf (r.getD []) := by
  rw [tlTick_ok_eq env s r hf] at h
  dsimp only at h
  rcases List.mem_append.mp h with h1 | h2
  · exact absurd h1 (tlOpens_no_ca env (r.getD []) _ _ t)
  · exact (closedTickets_spec s.old_tickets _ t).mp (tlCloses_ca_mem env _ _ t h2)

theorem tlTick_ca_count (env : TlEnv) (s : TlState) (t : ℕ)
    (hnd : s.old_tickets.Nodup) :
    caCount t (copy_trades_tick env s).2 ≤ 1 := by
  cases hf : env.fetch with
  | error e =>
    rw [tlTick_err env s e hf]
    simp [caCount]
  | ok r =>
    rw [tlTick_ok_eq env s r hf]
    dsimp only
    rw [caCount_append]
    have h1 : caCount t (tlOpens env (r.getD [])
        (newTicketsOf s.old_tickets (currentTlTicketsOf (r.getD [])))
        s.ticket_to_tradelocker).2 = 0 :=
      caCount_eq_zero t _ (tlOpens_no_ca env (r.getD []) _ _ t)
    have hnd2 : (closedTicketsOf s.old_tickets (currentTlTicketsOf (r.getD []))).Nodup :=
      List.Nodup.filter _ hnd
    have h2 := tlCloses_ca_count env
      (closedTicketsOf s.old_tickets (currentTlTicketsOf (r.getD [])))
      (tlOpens env (r.getD [])
        (newTicketsOf s.old_tickets (currentTlTicketsOf (r.getD [])))
        s.ticket_to_tradelocker).1 t hnd2
    by_cases hmem : t ∈ closedTicketsOf s.old_tickets (currentTlTicketsOf (r.getD []))
    · rw [if_pos hmem] at h2
      omega
    · rw [if_neg hmem] at h2
      omega

theorem tlRun_ca_counts : ∀ (envs : List TlEnv) (s : TlState) (gone : Finset ℕ),
    s.old_tickets.Nodup →
    noRevisit gone s.old_tickets.toFinset (tlSnaps envs) = true →
    (∀ t, t ∈ gone → t ∉ s.old_tickets → caCount t (tlRun envs s).2 = 0) ∧
    (∀ t, caCount t (tlRun envs s).2 ≤ 1) := by
  intro envs
  induction envs with
  | nil =>
    intro s gone hnd h
    exact ⟨fun t _ _ => rfl, fun t => by simp [tlRun, caCount]⟩
  | cons e es ih =>
    intro s gone hnd h
    cases hf : e.fetch with
    | error u =>
      rw [tlSnaps_cons_err e es u hf] at h
      rw [tlRun_cons, tlTick_err e s u hf]
      dsimp only
      rw [List.nil_append]
      exact ih s gone hnd h
    | ok r =>
      rw [tlSnaps_cons_ok e es r hf, noRevisit_cons, Bool.and_eq_true] at h
      have hdisj : gone ∩ (currentTlTicketsOf (r.getD [])).toFinset = ∅ :=
        of_decide_eq_true h.1
      have hrest := h.2
      rw [tlRun_cons]
      dsimp only
      have hold : (copy_trades_tick e s).1.old_tickets = currentTlTicketsOf (r.getD []) := by
        rw [tlTick_ok_eq e s r hf]
      have hnd2 : (copy_trades_tick e s).1.old_tickets.Nodup := by
        rw [hold]
        exact List.nodup_dedup _
      have hih := ih (copy_trades_tick e s).1
        (gone ∪ (s.old_tickets.toFinset \ (currentTlTicketsOf (r.getD [])).toFinset))
        hnd2 (by rw [hold]; exact hrest)
      constructor
      · intro t htg hto
        rw [caCount_append]
        have htick : caCount t (copy_trades_tick e s).2 = 0 := by
          apply caCount_eq_zero
          intro hmem
          exact hto (tlTick_ca_mem e s r hf t hmem).1
        have hnc : t ∉ currentTlTicketsOf (r.getD []) := by
          intro hc
          have hin : t ∈ gone ∩ (currentTlTicketsOf (r.getD [])).toFinset :=
            Finset.mem_inter.mpr ⟨htg, List.mem_toFinset.mpr hc⟩
          rw [hdisj] at hin
          exact absurd hin (Finset.not_mem_empty t)
        rw [htick, hih.1 t (Finset.mem_union_left _ htg) (by rw [hold]; exact hnc)]
      · intro t
        rw [caCount_append]
        by_cases hzero : caCount t (copy_trades_tick e s).2 = 0
        · rw [hzero]
          have := hih.2 t
          omega
        · have hmem := ca_mem_of_count_pos t _ hzero
          obtain ⟨hto, hnc⟩ := tlTick_ca_mem e s r hf t hmem
          have hg2 : t ∈ gone ∪
              (s.old_tickets.toFinset \ (currentTlTicketsOf (r.getD [])).toFinset) :=
            Finset.mem_union_right _ (Finset.mem_sdiff.mpr
              ⟨List.mem_toFinset.mpr hto, fun hc => hnc (List.mem_toFinset.mp hc)⟩)
          have hrest0 : caCount t (tlRun es (copy_trades_tick e s).1).2 = 0 :=
            hih.1 t hg2 (by rw [hold]; exact hnc)
          have hle := tlTick_ca_count e s t hnd
          omega

theorem tlOpens_lookup_preserved (env : TlEnv) (ps : List TlPosition) :
    ∀ (nts : List ℕ) (m : List (ℕ × ℤ)) (t : ℕ), t ∉ nts →
      mlookup (tlOpens env ps nts m).1 t = mlookup m t := by
  intro nts
  induction nts with
  | nil =>
    intro m t ht
    rfl
  | cons nt rest ih =>
    intro m t ht
    have htnt : t ≠ nt := fun he => ht (he ▸ List.mem_cons_self nt rest)
    have htr : t ∉ rest := fun hc => ht (List.mem_cons_of_mem nt hc)
    cases hf : findTlPos ps nt with
    | none =>
      rw [tlOpens_cons_skip env ps nt rest m hf]
      exact ih m t htr
    | some pos =>
      by_cases hm : pos.magic ≠ MAGIC_NUMBER
      · rw [tlOpens_cons_magic env ps nt rest m pos hf hm]
        exact ih m t htr
      · cases ho : env.placeOrder nt with
        | none =>
          rw [tlOpens_cons_fail env ps nt rest m pos hf hm ho]
          exact ih m t htr
        | some oid =>
          rw [tlOpens_cons_create env ps nt rest m pos oid hf hm ho]
          dsimp only
          rw [ih (mset m nt oid) t htr]
          exact mlookup_mset_ne m nt t oid htnt

theorem dInd_nil {α : Type} (t : ℕ) : dInd t ([] : List (ℕ × α)) = 0 := by
  simp [dInd, mdom]

/-- C1: for every sequence of ticks, the store's `create` is never invoked
twice for the same ticket without an intervening `delete`.  In the Robinhood
copier this holds for every input trace from the program's initial store (the
record map starts empty and a record is deleted whenever its ticket closes);
in the TradeLocker copier (whose record can outlive its ticket after a failed
close) it holds for every trace in which a vanished ticket never reappears in
a later snapshot — which MetaTrader5 guarantees, tickets being unique for the
life of a position. -/
theorem C1_no_duplicate_creates :
    (∀ (envs : List RhTickEnv) (old0 : List ℕ) (counters : List (DayKey × ℕ)),
        NoSecondCreateWithoutDelete
          (rhRun envs
            { old_tickets := old0, ticket_to_rh := [], day_trades_count := counters }).2) ∧
    (∀ (envs : List TlEnv) (s : TlState),
        noRevisit ∅ s.old_tickets.toFinset (tlSnaps envs) = true →
        NoSecondCreateWithoutDelete (tlRun envs s).2) := by
  constructor
  · intro envs old0 counters
    exact createsFresh_NoSecond _ (mdom ([] : List (ℕ × RhInfo × ℕ)))
      (rhRun_fresh envs
        { old_tickets := old0, ticket_to_rh := [], day_trades_count := counters }
        (fun u hu => absurd hu (by simp [mdom])))
  · intro envs s h
    apply count_le_one_NoSecond
    exact (tlRun_create_counts envs s ∅ h).2

/-- Witness for C1 at a concrete TradeLocker run: ticket 1 appears (its order
is created), then disappears; the snapshot sequence has no revisits and the
trace has no duplicate create. -/
theorem C1_no_duplicate_creates_witness :
    noRevisit ∅ C1tlS0.old_tickets.toFinset (tlSnaps C1tlEnvs) = true ∧
    NoSecondCreateWithoutDelete (tlRun C1tlEnvs C1tlS0).2 :=
  ⟨by decide, C1_no_duplicate_creates.2 C1tlEnvs C1tlS0 (by decide)⟩

/-- C2 amended: in the Robinhood copier, every newly closed ticket with a
MirrorRecord has its close attempted and its record deleted in the same tick
whatever the close outcome; over any run from the program's initial (empty)
store, close attempts and deletions for a ticket are equinumerous ("removed
iff attempted") and never outnumber creates (a permanently failing close is
attempted at most once per create, never retried).  In the TradeLocker
copier, the close is attempted but the record is removed **iff** the
destination close succeeded; on failure it is retained — and over any run
from a duplicate-free ticket set whose snapshots never revisit a vanished
ticket (the MetaTrader5 ticket-uniqueness guarantee, as in C1), each
ticket's close is attempted at most once, so the failed close is never
retried there either. -/
theorem C2_removal_close_policy :
    (∀ (env : RhTickEnv) (s : RhState) (r : Option (List MtPosition)) (ct : ℕ)
        (iv : RhInfo × ℕ),
        env.fetch = Except.ok r →
        ct ∈ closedTicketsOf s.old_tickets (currentTicketsOf (r.getD [])) →
        mlookup s.ticket_to_rh ct = some iv →
        Ev.closeAttempt ct ∈ (rhTick env s).2 ∧
        Ev.delete ct ∈ (rhTick env s).2 ∧
        mlookup (rhTick env s).1.ticket_to_rh ct = none) ∧
    (∀ (envs : List RhTickEnv) (old0 : List ℕ) (counters : List (DayKey × ℕ)) (t : ℕ),
        caCount t (rhRun envs
            { old_tickets := old0, ticket_to_rh := [], day_trades_count := counters }).2 =
          delCount t (rhRun envs
            { old_tickets := old0, ticket_to_rh := [], day_trades_count := counters }).2 ∧
        caCount t (rhRun envs
            { old_tickets := old0, ticket_to_rh := [], day_trades_count := counters }).2 ≤
          createCount t (rhRun envs
            { old_tickets := old0, ticket_to_rh := [], day_trades_count := counters }).2) ∧
    (∀ (env : TlEnv) (s : TlState) (r : Option (List TlPosition)) (ct : ℕ) (oid : ℤ),
        env.fetch = Except.ok r →
        ct ∈ closedTicketsOf s.old_tickets (currentTlTicketsOf (r.getD [])) →
        mlookup s.ticket_to_tradelocker ct = some oid →
        Ev.closeAttempt ct ∈ (copy_trades_tick env s).2 ∧
        (mlookup (copy_trades_tick env s).1.ticket_to_tradelocker ct = none ↔
          env.closeOrder oid = true)) ∧
    (∀ (envs : List TlEnv) (s : TlState) (t : ℕ),
        s.old_tickets.Nodup →
        noRevisit ∅ s.old_tickets.toFinset (tlSnaps envs) = true →
        caCount t (tlRun envs s).2 ≤ 1) := by
  refine ⟨?_, ?_, ?_, ?_⟩
  · intro env s r ct iv hf hcl hml
    rw [rhTick_ok_eq env s r hf]
    dsimp only
    have hctold := ((closedTickets_spec s.old_tickets _ ct).mp hcl).1
    have hnotnew : ct ∉ newTicketsOf s.old_tickets (currentTicketsOf (r.getD [])) :=
      fun hc => newTickets_not_in_old _ _ ct hc hctold
    have hml2 : mlookup (rhOpens env (r.getD []) s.day_trades_count
        (newTicketsOf s.old_tickets (currentTicketsOf (r.getD [])))
        s.ticket_to_rh).1 ct = some iv := by
      rw [rhOpens_lookup_preserved env (r.getD []) s.day_trades_count _ _ ct hnotnew]
      exact hml
    obtain ⟨h1, h2, h3⟩ := rhCloses_processed env
      (closedTicketsOf s.old_tickets (currentTicketsOf (r.getD []))) _
      s.day_trades_count ct iv hcl hml2
    exact ⟨List.mem_append_right _ h1, List.mem_append_right _ h2, h3⟩
  · intro envs old0 counters t
    obtain ⟨h1, h2⟩ := rhRun_counts envs
      { old_tickets := old0, ticket_to_rh := [], day_trades_count := counters } t
    refine ⟨h1, ?_⟩
    have h0 : dInd t ([] : List (ℕ × RhInfo × ℕ)) = 0 := dInd_nil t
    simp only at h2
    omega
  · intro env s r ct oid hf hcl hml
    rw [tlTick_ok_eq env s r hf]
    dsimp only
    have hctold := ((closedTickets_spec s.old_tickets _ ct).mp hcl).1
    have hnotnew : ct ∉ newTicketsOf s.old_tickets (currentTlTicketsOf (r.getD [])) :=
      fun hc => newTickets_not_in_old _ _ ct hc hctold
    have hml2 : mlookup (tlOpens env (r.getD [])
        (newTicketsOf s.old_tickets (currentTlTicketsOf (r.getD [])))
        s.ticket_to_tradelocker).1 ct = some oid := by
      rw [tlOpens_lookup_preserved env (r.getD []) _ _ ct hnotnew]
      exact hml
    obtain ⟨h1, h2, h3⟩ := tlCloses_processed env
      (closedTicketsOf s.old_tickets (currentTlTicketsOf (r.getD []))) _ ct oid hcl hml2
    refine ⟨List.mem_append_right _ h1, ?_⟩
    cases hco : env.closeOrder oid with
    | true =>
      rw [h2 hco]
      simp
    | false =>
      rw [h3 hco]
      simp
  · intro envs s t hnd h
    exact (tlRun_ca_counts envs s ∅ hnd h).2 t

/-- Witness for C2's amended claim at concrete inputs: Robinhood ticket 1
(record present, fetch returning the empty snapshot, every close lookup
failing) is attempted and removed; TradeLocker ticket 1 with a failing close
is attempted and retained, and over the two-tick run in which it vanishes
and the close keeps failing the trace holds exactly one close attempt —
the retained record is never retried. -/
theorem C2_removal_close_policy_witness :
    C3envNone.fetch = Except.ok none ∧
    1 ∈ closedTicketsOf C3state.old_tickets
      (currentTicketsOf ((none : Option (List MtPosition)).getD [])) ∧
    mlookup C3state.ticket_to_rh 1 = some (cexInfo, 0) ∧
    (Ev.closeAttempt 1 ∈ (rhTick C3envNone C3state).2 ∧
      Ev.delete 1 ∈ (rhTick C3envNone C3state).2 ∧
      mlookup (rhTick C3envNone C3state).1.ticket_to_rh 1 = none) ∧
    (Ev.closeAttempt 1 ∈ (copy_trades_tick C2tlEnv C2tlState).2 ∧
      (mlookup (copy_trades_tick C2tlEnv C2tlState).1.ticket_to_tradelocker 1 = none ↔
        C2tlEnv.closeOrder 42 = true)) ∧
    C2tlState.old_tickets.Nodup ∧
    noRevisit ∅ C2tlState.old_tickets.toFinset (tlSnaps C2tlEnvs) = true ∧
    (tlRun C2tlEnvs C2tlState).2 = [Ev.closeAttempt 1] ∧
    mlookup (tlRun C2tlEnvs C2tlState).1.ticket_to_tradelocker 1 = some 42 ∧
    caCount 1 (tlRun C2tlEnvs C2tlState).2 ≤ 1 :=
  ⟨rfl, by decide, rfl,
    C2_removal_close_policy.1 C3envNone C3state none 1 (cexInfo, 0) rfl (by decide) rfl,
    C2_removal_close_policy.2.2.1 C2tlEnv C2tlState (some []) 1 42 rfl (by decide) rfl,
    by decide, by decide, by decide, by decide,
    C2_removal_close_policy.2.2.2 C2tlEnvs C2tlState 1 (by decide) (by decide)⟩

/-! ### Translation lemmas and C6 -/

theorem copy_success_eq (env : CopyEnv) (counters : List (DayKey × ℕ)) (now : ℕ)
    (trade : MtPosition) (lp b : ℚ)
    (h1 : is_market_open_now env.tz = true)
    (h2 : (account_equity_and_pdt_check env.equity counters now).1 = true)
    (h3 : env.lastPrice = Except.ok lp)
    (h4 : env.bestBid = Except.ok (some b)) :
    copy_mt5_trade_to_robinhood env counters now trade =
      (Option.map (fun _ => openInfo now trade lp) (env.placeOpen (openReq now trade lp b)),
        [Ev.submitOpen trade.ticket (openReq now trade lp b)]) := by
  unfold copy_mt5_trade_to_robinhood
  rw [h1, h2, h3, h4]
  simp only [Bool.true_eq_false, if_false]
  unfold openReq openInfo
  cases env.placeOpen
    { symbol := "TSLA", exp_date := dayOf now, strike := round2 lp,
      option_type := if trade.type = ORDER_TYPE_BUY then "call" else "put",
      quantity := trade.volume, side := "buy", position_effect := "open",
      limit_price := (1001 / 1000) * b } with
  | none => rfl
  | some oid => rfl

theorem copy_no_price_none (env : CopyEnv) (counters : List (DayKey × ℕ)) (now : ℕ)
    (trade : MtPosition) (e : Unit) (h3 : env.lastPrice = Except.error e) :
    copy_mt5_trade_to_robinhood env counters now trade = (none, []) ∨
    copy_mt5_trade_to_robinhood env counters now trade = (none, []) := by
  left
  unfold copy_mt5_trade_to_robinhood
  rw [h3]
  by_cases h1 : is_market_open_now env.tz = false
  · rw [if_pos h1]
  · rw [if_neg h1]
    by_cases h2 : (account_equity_and_pdt_check env.equity counters now).1 = false
    · rw [if_pos h2]
    · rw [if_neg h2]

theorem copy_no_bid_none (env : CopyEnv) (counters : List (DayKey × ℕ)) (now : ℕ)
    (trade : MtPosition)
    (h4 : env.bestBid = Except.error () ∨ env.bestBid = Except.ok none) :
    copy_mt5_trade_to_robinhood env counters now trade = (none, []) := by
  unfold copy_mt5_trade_to_robinhood
  by_cases h1 : is_market_open_now env.tz = false
  · rw [if_pos h1]
  · rw [if_neg h1]
    by_cases h2 : (account_equity_and_pdt_check env.equity counters now).1 = false
    · rw [if_pos h2]
    · rw [if_neg h2]
      cases h3 : env.lastPrice with
      | error e => rfl
      | ok lp =>
        cases h4 with
        | inl h => rw [h]
        | inr h => rw [h]

theorem round2_401 : round2 (401 : ℚ) = 401 := by
  unfold round2 roundHalfEven floorQ
  have h1 : (401 : ℚ) * 100 = 40100 := by norm_num
  rw [h1]
  have h2 : ((40100 : ℚ)).num = 40100 := by norm_num
  have h3 : ((40100 : ℚ)).den = 1 := by norm_num
  rw [h2, h3, Nat.cast_one]
  have h4 : Int.fdiv 40100 1 = 40100 := by decide
  rw [h4]
  norm_num

theorem cexOpenEnv_market : is_market_open_now cexOpenEnv.tz = true := by
  show is_market_open_now (Except.ok { weekday := 0, secondsOfDay := 36000 }) = true
  unfold is_market_open_now
  dsimp only
  rw [if_neg (by norm_num : ¬ (5 : ℕ) ≤ 0)]
  rw [decide_eq_true (by norm_num : (34200 : ℚ) ≤ 36000),
    decide_eq_true (by norm_num : (36000 : ℚ) ≤ 57600)]
  rfl

theorem cexOpenEnv_pdt (now : ℕ) :
    (account_equity_and_pdt_check cexOpenEnv.equity [] now).1 = true := by
  show (account_equity_and_pdt_check (Except.ok 30000) [] now).1 = true
  unfold account_equity_and_pdt_check
  dsimp only
  rw [if_pos (by norm_num : (25000 : ℚ) ≤ 30000)]

/-- C6 counterexample: for a long position with reference price 401 the code
opens a call with strike `round(401, 2) = 401`; with the plausible listed
strike chain {400, 405} the nearest available at-the-money strike is 400, the
code's strike differs from it and is not an available strike at all —
refuting "the strike is the nearest available at-the-money strike". -/
theorem C6_counterexample :
    (copy_mt5_trade_to_robinhood cexOpenEnv [] (20000 * secondsPerDay) C6trade).1 =
      some { symbol := "TSLA", expiration_date := 20000, strike := 401,
             option_type := "call", quantity := 2, side := "buy" } ∧
    nearestAvailableStrike C6avail 401 = some 400 ∧
    (401 : ℚ) ≠ 400 ∧ (401 : ℚ) ∉ C6avail := by
  refine ⟨?_, ?_, by norm_num, ?_⟩
  · rw [copy_success_eq cexOpenEnv [] (20000 * secondsPerDay) C6trade 401 2
      cexOpenEnv_market (cexOpenEnv_pdt _) rfl rfl]
    have hfst : (Option.map (fun _ => openInfo (20000 * secondsPerDay) C6trade 401)
        (cexOpenEnv.placeOpen (openReq (20000 * secondsPerDay) C6trade 401 2)),
        ([Ev.submitOpen C6trade.ticket (openReq (20000 * secondsPerDay) C6trade 401 2)] :
          List Ev)).1 = some (openInfo (20000 * secondsPerDay) C6trade 401) := rfl
    rw [hfst]
    unfold openInfo
    rw [round2_401]
    have hday : dayOf (20000 * secondsPerDay) = 20000 := by
      unfold dayOf
      exact Nat.mul_div_cancel 20000 (by unfold secondsPerDay; norm_num)
    rw [hday]
    rfl
  · unfold nearestAvailableStrike C6avail
    rw [List.foldl_cons, List.foldl_cons, List.foldl_nil]
    show (if |(405 : ℚ) - 401| < |(400 : ℚ) - 401| then some 405 else some 400) = some 400
    rw [if_neg]
    rw [show |(405 : ℚ) - 401| = 4 by rw [abs_of_nonneg (by norm_num)]; norm_num,
      show |(400 : ℚ) - 401| = 1 by rw [abs_of_nonpos (by norm_num)]; norm_num]
    norm_num
  · intro hmem
    unfold C6avail at hmem
    rcases List.mem_cons.mp hmem with h1 | h2
    · norm_num at h1
    · rcases List.mem_cons.mp h2 with h3 | h4
      · norm_num at h3
      · exact absurd h4 (List.not_mem_nil _)

/-- C6 amended: when the gates pass and both market data are available, the
opening translation for a long source position is a buy-to-open call and for a
short one a buy-to-open put on the fixed underlying TSLA, expiring on the
calendar day of the call, with entry limit price 1.001 times the best bid —
but with strike `round(last_price, 2)`, the reference price at cent
precision, not a search over available strikes; if the reference price or the
best bid is unavailable, translation returns null and no open order is
submitted. -/
theorem C6_translation_policy :
    ∀ (env : CopyEnv) (counters : List (DayKey × ℕ)) (now : ℕ) (trade : MtPosition)
      (lp b : ℚ),
      (is_market_open_now env.tz = true →
        (account_equity_and_pdt_check env.equity counters now).1 = true →
        env.lastPrice = Except.ok lp →
        env.bestBid = Except.ok (some b) →
        copy_mt5_trade_to_robinhood env counters now trade =
          (Option.map (fun _ => openInfo now trade lp)
            (env.placeOpen (openReq now trade lp b)),
            [Ev.submitOpen trade.ticket (openReq now trade lp b)])) ∧
      (∀ e, env.lastPrice = Except.error e →
        copy_mt5_trade_to_robinhood env counters now trade = (none, [])) ∧
      ((env.bestBid = Except.error () ∨ env.bestBid = Except.ok none) →
        copy_mt5_trade_to_robinhood env counters now trade = (none, [])) ∧
      (openReq now trade lp b).option_type =
        (if trade.type = ORDER_TYPE_BUY then "call" else "put") ∧
      (openReq now trade lp b).side = "buy" ∧
      (openReq now trade lp b).position_effect = "open" ∧
      (openReq now trade lp b).exp_date = dayOf now ∧
      (openReq now trade lp b).strike = round2 lp ∧
      (openReq now trade lp b).limit_price = (1001 / 1000) * b := by
  intro env counters now trade lp b
  refine ⟨fun h1 h2 h3 h4 => copy_success_eq env counters now trade lp b h1 h2 h3 h4,
    fun e h3 => ?_, fun h4 => copy_no_bid_none env counters now trade h4,
    rfl, rfl, rfl, rfl, rfl, rfl⟩
  rcases copy_no_price_none env counters now trade e h3 with h | h
  · exact h
  · exact h

/-- Witness for C6's amended claim at a concrete input: market open, equity
30000, reference price 401, best bid 2, submission succeeding. -/
theorem C6_translation_policy_witness :
    is_market_open_now cexOpenEnv.tz = true ∧
    (account_equity_and_pdt_check cexOpenEnv.equity [] (20000 * secondsPerDay)).1 = true ∧
    cexOpenEnv.lastPrice = Except.ok 401 ∧
    cexOpenEnv.bestBid = Except.ok (some 2) ∧
    copy_mt5_trade_to_robinhood cexOpenEnv [] (20000 * secondsPerDay) C6trade =
      (Option.map (fun _ => openInfo (20000 * secondsPerDay) C6trade 401)
        (cexOpenEnv.placeOpen (openReq (20000 * secondsPerDay) C6trade 401 2)),
        [Ev.submitOpen C6trade.ticket (openReq (20000 * secondsPerDay) C6trade 401 2)]) :=
  ⟨cexOpenEnv_market, cexOpenEnv_pdt _, rfl, rfl,
    (C6_translation_policy cexOpenEnv [] (20000 * secondsPerDay) C6trade 401 2).1
      cexOpenEnv_market (cexOpenEnv_pdt _) rfl rfl⟩

/-! ### C10: unconditional day-trade recording -/

theorem rhOpens_env_indep (env1 env2 : RhTickEnv) (ps : List MtPosition)
    (counters : List (DayKey × ℕ)) (hnow : env1.now = env2.now)
    (hopen : env1.openEnv = env2.openEnv) :
    ∀ (nts : List ℕ) (m : List (ℕ × RhInfo × ℕ)),
      rhOpens env1 ps counters nts m = rhOpens env2 ps counters nts m := by
  intro nts
  induction nts with
  | nil =>
    intro m
    rfl
  | cons nt rest ih =>
    intro m
    have hcopy : copy_mt5_trade_to_robinhood (env1.openEnv nt) counters env1.now =
        copy_mt5_trade_to_robinhood (env2.openEnv nt) counters env2.now := by
      rw [hopen, hnow]
    cases hf : findPos ps nt with
    | none =>
      rw [rhOpens_cons_skip env1 ps counters nt rest m hf,
        rhOpens_cons_skip env2 ps counters nt rest m hf]
      exact ih m
    | some pos =>
      cases hc : (copy_mt5_trade_to_robinhood (env2.openEnv nt) counters env2.now pos).1 with
      | none =>
        rw [rhOpens_cons_fail env1 ps counters nt rest m pos hf (by rw [hcopy]; exact hc),
          rhOpens_cons_fail env2 ps counters nt rest m pos hf hc, hcopy, ih m]
      | some rh_info =>
        rw [rhOpens_cons_create env1 ps counters nt rest m pos rh_info hf
            (by rw [hcopy]; exact hc),
          rhOpens_cons_create env2 ps counters nt rest m pos rh_info hf hc, hcopy, hnow,
          ih (mset m nt (rh_info, env2.now))]

/-- C10: in the close path of the Robinhood copier, for every tick whose fetch
succeeded, today's day-trade counter grows by exactly the number of newly
closed tickets whose MirrorRecord was opened on today's calendar date —
regardless of the close-environment outcomes (market closed, gate denial,
quote unavailable, or submission failure do not matter), since the close
result is discarded before `record_day_trade_if_applicable` runs and the
counters never depend on the close environment. -/
theorem C10_day_trade_recorded_unconditionally :
    ∀ (env : RhTickEnv) (s : RhState) (r : Option (List MtPosition)),
      env.fetch = Except.ok r → s.old_tickets.Nodup →
      (cget (rhTick env s).1.day_trades_count (some (dayOf env.now)) =
        cget s.day_trades_count (some (dayOf env.now)) +
          sameDayCloses s.ticket_to_rh env.now
            (closedTicketsOf s.old_tickets (currentTicketsOf (r.getD [])))) ∧
      (∀ f g : ℕ → CloseEnv,
        (rhTick { env with closeEnv := f } s).1.day_trades_count =
          (rhTick { env with closeEnv := g } s).1.day_trades_count) := by
  intro env s r hf hnd
  constructor
  · rw [rhTick_ok_eq env s r hf]
    dsimp only
    have hndc : (closedTicketsOf s.old_tickets (currentTicketsOf (r.getD []))).Nodup :=
      List.Nodup.filter _ hnd
    rw [rhCloses_counters env _ _ s.day_trades_count hndc]
    have hsame : sameDayCloses
        (rhOpens env (r.getD []) s.day_trades_count
          (newTicketsOf s.old_tickets (currentTicketsOf (r.getD []))) s.ticket_to_rh).1
        env.now (closedTicketsOf s.old_tickets (currentTicketsOf (r.getD []))) =
        sameDayCloses s.ticket_to_rh env.now
          (closedTicketsOf s.old_tickets (currentTicketsOf (r.getD []))) := by
      apply List.countP_congr
      intro ct hct
      have hctold := ((closedTickets_spec s.old_tickets _ ct).mp hct).1
      have hnotnew : ct ∉ newTicketsOf s.old_tickets (currentTicketsOf (r.getD [])) :=
        fun hc => newTickets_not_in_old _ _ ct hc hctold
      rw [rhOpens_lookup_preserved env (r.getD []) s.day_trades_count _ _ ct hnotnew]
    rw [hsame]
  · intro f g
    have hff : ({ env with closeEnv := f } : RhTickEnv).fetch = Except.ok r := hf
    have hgg : ({ env with closeEnv := g } : RhTickEnv).fetch = Except.ok r := hf
    rw [rhTick_ok_eq _ s r hff, rhTick_ok_eq _ s r hgg]
    dsimp only
    rw [rhOpens_env_indep { env with closeEnv := f } { env with closeEnv := g }
      (r.getD []) s.day_trades_count rfl rfl
      (newTicketsOf s.old_tickets (currentTicketsOf (r.getD []))) s.ticket_to_rh]
    exact (rhCloses_closeEnv_indep { env with closeEnv := f } { env with closeEnv := g }
      rfl (closedTicketsOf s.old_tickets (currentTicketsOf (r.getD []))) _
      s.day_trades_count).2

/-- Witness for C10 at a concrete tick: ticket 5, opened at time 100 and
closed at time 200 (same calendar day 0) with every close lookup failing,
still increments today's counter from 0 to 1. -/
theorem C10_day_trade_recorded_unconditionally_witness :
    C10env.fetch = Except.ok (some []) ∧
    C10state.old_tickets.Nodup ∧
    cget (rhTick C10env C10state).1.day_trades_count (some (dayOf C10env.now)) =
      cget C10state.day_trades_count (some (dayOf C10env.now)) +
        sameDayCloses C10state.ticket_to_rh C10env.now
          (closedTicketsOf C10state.old_tickets
            (currentTicketsOf ((some ([] : List MtPosition)).getD []))) ∧
    cget (rhTick C10env C10state).1.day_trades_count (some 0) = 1 ∧
    cget C10state.day_trades_count (some 0) = 0 :=
  ⟨rfl, by decide,
    (C10_day_trade_recorded_unconditionally C10env C10state (some []) rfl (by decide)).1,
    by decide, rfl⟩
